import Mathlib

/-!
# Mains Frequency Monitor: acquisition engine of `main.c`

A shallow embedding of the interrupt service routine `ISR` and of one iteration of the
polling loop of `main` (file `Firmware/MainsFrequencyMonitor.X/main.c`), followed by the
properties of the acquisition engine.

Modelling conventions.

* The XC8 type `int` is a 16 bit signed integer.  It is modelled by `Int`, and every `++`
  goes through `wrapInt16`, so that an overflow would be visible in the model.
* The XC8 type `double` is idealised as the exact rationals `ℚ`.  Rounding is not modelled.
  In `ℚ` a division by zero yields `0`; the classification of a reading is not affected
  (the hardware value would be an infinity, which is also outside the band 110 to 130).
* The hardware registers read by the ISR (`SMT1PRAIF`, `ZCDIF`, `SMT1CPR`, `AT1PHS`) are
  gathered in `Regs`; the seven `volatile` globals are gathered in `Globals`.
-/

namespace MainsFrequencyMonitor

/-! ## Constants and machine integers -/

/-- Main oscillator frequency, `#define _XTAL_FREQ 20000000.0`. -/
def XTAL_FREQ : ℚ := 20000000

/-- Mains frequency, which is also the number of cycles per window, `#define MAINS_FREQ 60`. -/
def MAINS_FREQ : Int := 60

/-- Reduction of an integer to the range of a 16 bit signed `int`. -/
def wrapInt16 (x : Int) : Int := (x + 32768) % 65536 - 32768

/-- Reduction to an 8 bit `char` (unsigned in XC8). -/
def wrapChar (x : Nat) : Nat := x % 256

/-- Reduction to a 32 bit `unsigned long int`. -/
def wrapULong (x : Nat) : Nat := x % 4294967296

/-! ## State -/

/-- The `volatile` globals of `main.c` (lines 51 to 57). -/
structure Globals where
  acqCounter : Int
  acqGate : Bool
  acqHolder : ℚ
  acqOut : ℚ
  missedCycle : Bool
  erroneousZeroCrossing : Int
  acqErrZeroCross : Int
  deriving DecidableEq

/-- The initial values of the globals (lines 51 to 57): the reset state. -/
def resetState : Globals :=
  { acqCounter := 0, acqGate := false, acqHolder := 0, acqOut := 0,
    missedCycle := false, erroneousZeroCrossing := 0, acqErrZeroCross := 0 }

/-- The hardware registers the ISR reads: the two interrupt flags, the captured period of
the signal measurement timer and the phase of the angular timer. -/
structure Regs where
  SMT1PRAIF : Bool
  ZCDIF : Bool
  SMT1CPR : Nat
  AT1PHS : Nat
  deriving DecidableEq

/-! ## The interrupt service routine -/

/-- Line 191: `double measurementHolder = _XTAL_FREQ / (double)SMT1CPR`. -/
def measurementHolder (SMT1CPR : Nat) : ℚ := XTAL_FREQ / (SMT1CPR : ℚ)

/-- Lines 193 to 207: classification of one measurement and accumulation. -/
def accumulate (m : ℚ) (g : Globals) : Globals :=
  if m < 130 ∧ m > 110 then
    let g1 := { g with erroneousZeroCrossing := wrapInt16 (g.erroneousZeroCrossing + 1) }
    if Int.tmod g1.erroneousZeroCrossing 2 = 0 ∧ g1.erroneousZeroCrossing > 0 then
      { g1 with acqCounter := wrapInt16 (g1.acqCounter + 1) }
    else g1
  else
    { g with acqCounter := wrapInt16 (g.acqCounter + 1), acqHolder := g.acqHolder + m }

/-- One write to a global variable. -/
inductive Write where
  | acqCounter (v : Int)
  | acqGate (v : Bool)
  | acqHolder (v : ℚ)
  | acqOut (v : ℚ)
  | missedCycle (v : Bool)
  | erroneousZeroCrossing (v : Int)
  | acqErrZeroCross (v : Int)
  deriving DecidableEq

/-- Effect of one write on the globals. -/
def Write.exec : Write → Globals → Globals
  | .acqCounter v, g => { g with acqCounter := v }
  | .acqGate v, g => { g with acqGate := v }
  | .acqHolder v, g => { g with acqHolder := v }
  | .acqOut v, g => { g with acqOut := v }
  | .missedCycle v, g => { g with missedCycle := v }
  | .erroneousZeroCrossing v, g => { g with erroneousZeroCrossing := v }
  | .acqErrZeroCross v, g => { g with acqErrZeroCross := v }

/-- Lines 211 to 216, the six assignments of the publication block in program order.  The
right-hand side of each assignment is read in the state in which the statement runs. -/
def publishStmts : List (Globals → Write) :=
  [ fun _ => Write.acqCounter 0,
    fun g => Write.acqOut g.acqHolder,
    fun _ => Write.acqGate true,
    fun _ => Write.acqHolder 0,
    fun g => Write.acqErrZeroCross g.erroneousZeroCrossing,
    fun _ => Write.erroneousZeroCrossing 0 ]

/-- Sequential execution of assignments: final state. -/
def runStmts : List (Globals → Write) → Globals → Globals
  | [], g => g
  | s :: ss, g => runStmts ss ((s g).exec g)

/-- Sequential execution of assignments: the writes performed, in order. -/
def writeLog : List (Globals → Write) → Globals → List Write
  | [], _ => []
  | s :: ss, g => s g :: writeLog ss ((s g).exec g)

/-- Lines 209 to 217: publication of the window once the cycle count reaches `MAINS_FREQ`. -/
def publishIfFull (g : Globals) : Globals :=
  if g.acqCounter ≥ MAINS_FREQ then runStmts publishStmts g else g

/-- Lines 189 to 217: the body of the `if (SMT1PRAIF)` branch of the ISR (the flag itself is
cleared in `ISR`). -/
def periodBranch (SMT1CPR : Nat) (g : Globals) : Globals :=
  publishIfFull (accumulate (measurementHolder SMT1CPR) g)

/-- Lines 224 to 227: the phase check of the `else if (ZCDIF)` branch of the ISR. -/
def zeroCrossBranch (AT1PHS : Nat) (g : Globals) : Globals :=
  if AT1PHS < 177 ∨ AT1PHS > 181 then { g with missedCycle := true } else g

/-- Lines 185 to 229: the interrupt service routine. -/
def ISR (r : Regs) (g : Globals) : Regs × Globals :=
  if r.SMT1PRAIF then
    ({ r with SMT1PRAIF := false }, periodBranch r.SMT1CPR g)
  else if r.ZCDIF then
    ({ r with ZCDIF := false }, zeroCrossBranch r.AT1PHS g)
  else
    (r, g)

/-- Register contents at a period interrupt that delivers the captured period `c`. -/
def periodRegs (c : Nat) : Regs :=
  { SMT1PRAIF := true, ZCDIF := false, SMT1CPR := c, AT1PHS := 0 }

/-- Register contents at a zero-crossing interrupt that delivers the phase `p`. -/
def zeroCrossRegs (p : Nat) : Regs :=
  { SMT1PRAIF := false, ZCDIF := true, SMT1CPR := 0, AT1PHS := p }

/-- The globals after a run of ISR calls, one per period measurement of the list. -/
def runPeriods (l : List Nat) (g : Globals) : Globals :=
  l.foldl (fun s c => (ISR (periodRegs c) s).2) g

/-- Whether the ISR call for the period measurement `c` in state `g` takes the publication
branch (the test of line 209 succeeds). -/
def fires (c : Nat) (g : Globals) : Bool :=
  decide ((accumulate (measurementHolder c) g).acqCounter ≥ MAINS_FREQ)

/-- For each period measurement of the list, whether its ISR call published a window. -/
def firings : List Nat → Globals → List Bool
  | [], _ => []
  | c :: cs, g => fires c g :: firings cs ((ISR (periodRegs c) g).2)

/-- Whether the ISR classifies the measurement `c` as erroneous (test of line 193). -/
def isErroneous (c : Nat) : Bool :=
  decide (measurementHolder c < 130 ∧ measurementHolder c > 110)

/-- Whether the ISR classifies the measurement `c` as valid (the `else` of line 203). -/
def isValid (c : Nat) : Bool := !isErroneous c

/-- Number of valid measurements of a list. -/
def validCount (l : List Nat) : Nat := (l.filter isValid).length

/-- Number of erroneous measurements of a list. -/
def errCount (l : List Nat) : Nat := (l.filter isErroneous).length

/-- Sum of the values `measurementHolder` of the valid measurements of a list. -/
def validSum (l : List Nat) : ℚ := ((l.filter isValid).map measurementHolder).sum

/-! ## One iteration of the polling loop -/

/-- Locals of `main` that survive an iteration, and the three output latches. -/
structure MainState where
  hours : Nat
  minutes : Nat
  seconds : Nat
  uptimeCounter : Nat
  LATB4 : Bool
  LATB6 : Bool
  LATC7 : Bool
  deriving DecidableEq

/-- The values handed to the two `printf` calls of lines 157 and 162. -/
structure Report where
  freqHolder : ℚ
  hours : Nat
  minutes : Nat
  seconds : Nat
  uptimeCounter : Nat
  deriving DecidableEq

/-- Lines 133 to 150: the time of day advances by one second. -/
def tick (m : MainState) : MainState :=
  let m1 := { m with seconds := wrapChar (m.seconds + 1) }
  if m1.seconds > 59 then
    let m2 := { m1 with seconds := 0, minutes := wrapChar (m1.minutes + 1) }
    if m2.minutes > 59 then
      let m3 := { m2 with minutes := 0, hours := wrapChar (m2.hours + 1) }
      if m3.hours > 23 then { m3 with hours := 0 } else m3
    else m2
  else m1

/-- Line 152: `acqOut/(double)(MAINS_FREQ - (acqErrZeroCross/2))`, with the truncating
integer division of C. -/
def freqHolder (acqOut : ℚ) (acqErrZeroCross : Int) : ℚ :=
  acqOut / (((MAINS_FREQ - Int.tdiv acqErrZeroCross 2 : Int)) : ℚ)

/-- Lines 126 to 178: one iteration of the `while(1)` loop, run without interruption. -/
def mainLoopIter (m : MainState) (g : Globals) : MainState × Globals × Option Report :=
  if g.acqGate then
    let g1 := { g with acqGate := false }
    let m1 := { m with LATB6 := true, uptimeCounter := wrapULong (m.uptimeCounter + 1) }
    let m2 := tick m1
    let f := freqHolder g1.acqOut g1.acqErrZeroCross
    let rep : Report :=
      { freqHolder := f, hours := m2.hours, minutes := m2.minutes, seconds := m2.seconds,
        uptimeCounter := m2.uptimeCounter }
    let m3 := { m2 with LATC7 := true }
    let g2 := { g1 with acqOut := 0, acqErrZeroCross := 0 }
    let m4 := { m3 with LATB6 := false }
    if g2.missedCycle then
      ({ m4 with LATB4 := false }, { g2 with missedCycle := false }, some rep)
    else
      ({ m4 with LATB4 := true }, g2, some rep)
  else
    (m, g, none)

/-- The locals of `main` when the loop is entered (lines 109 to 122). -/
def mainInit : MainState :=
  { hours := 21, minutes := 48, seconds := 0, uptimeCounter := 0,
    LATB4 := false, LATB6 := false, LATC7 := false }

/-! ## The interrupt and the polling loop as one event system

Every ISR call and every iteration of the polling loop is one atomic step. -/

/-- The events of the system: a period interrupt with the captured period, a zero-crossing
interrupt with the sampled phase, and one iteration of the polling loop of `main`. -/
inductive Event where
  | period (SMT1CPR : Nat)
  | zeroCross (AT1PHS : Nat)
  | poll
  deriving DecidableEq

/-- The data of one window as it crosses the handoff: `acqOut` and `acqErrZeroCross`. -/
structure Window where
  acqOut : ℚ
  acqErrZeroCross : Int
  deriving DecidableEq

/-- What one step shows: the ISR published a window, the polling loop consumed a window, the
polling loop found the gate closed (`idle`), or an ISR call without publication (`quiet`). -/
inductive Obs where
  | published (w : Window)
  | took (w : Window)
  | idle
  | quiet
  deriving DecidableEq

/-- State of the whole system: the locals of `main` and the shared globals. -/
structure Sys where
  m : MainState
  g : Globals
  deriving DecidableEq

/-- One step of the system.  A period event is observed as `published` when the test of line
209 succeeds, with the values left in `acqOut` and `acqErrZeroCross`; an iteration of the
polling loop is observed as `took` when the test of line 126 succeeds, with the values of
`acqOut` and `acqErrZeroCross` that line 152 reads. -/
def step (e : Event) (s : Sys) : Sys × Obs :=
  match e with
  | Event.period c =>
    let g1 := (ISR (periodRegs c) s.g).2
    ({ s with g := g1 },
      if fires c s.g then Obs.published ⟨g1.acqOut, g1.acqErrZeroCross⟩ else Obs.quiet)
  | Event.zeroCross p => ({ s with g := (ISR (zeroCrossRegs p) s.g).2 }, Obs.quiet)
  | Event.poll =>
    let r := mainLoopIter s.m s.g
    ({ m := r.1, g := r.2.1 },
      if s.g.acqGate then Obs.took ⟨s.g.acqOut, s.g.acqErrZeroCross⟩ else Obs.idle)

/-- Run of a list of events: final state and the observations, one per event. -/
def runEvents : List Event → Sys → Sys × List Obs
  | [], s => (s, [])
  | e :: es, s => ((runEvents es (step e s).1).1, (step e s).2 :: (runEvents es (step e s).1).2)

/-- The system at power-up: reset globals and the initial locals of `main`. -/
def initSys : Sys := { m := mainInit, g := resetState }

/-- The windows the ISR published, in order. -/
def publishedWindows : List Obs → List Window
  | [] => []
  | Obs.published w :: t => w :: publishedWindows t
  | _ :: t => publishedWindows t

/-- The result of every poll, in order: the window it consumed, or nothing. -/
def pollResults : List Obs → List (Option Window)
  | [] => []
  | Obs.took w :: t => some w :: pollResults t
  | Obs.idle :: t => none :: pollResults t
  | _ :: t => pollResults t

/-- The windows the polling loop consumed, in order. -/
def consumedWindows (tr : List Obs) : List Window := (pollResults tr).filterMap id

/-- The window that is published and not yet consumed, read off the globals. -/
def pendingWindow (g : Globals) : List Window :=
  if g.acqGate then [⟨g.acqOut, g.acqErrZeroCross⟩] else []

/-- Whether there is a poll between every two publications; the flag tells whether a
publication is outstanding since the last poll. -/
def pollsBetween : List Obs → Bool → Bool
  | [], _ => true
  | Obs.published _ :: t, outstanding => !outstanding && pollsBetween t true
  | Obs.took _ :: t, _ => pollsBetween t false
  | Obs.idle :: t, _ => pollsBetween t false
  | Obs.quiet :: t, outstanding => pollsBetween t outstanding

/-- Whether a list of events contains no poll. -/
def noPoll (es : List Event) : Bool := es.all (fun e => decide (e ≠ Event.poll))

/-! ### The handoff as the specification words it

Section 4.3 of the specification describes a one-place mailbox: a publication overwrites the
pending window (last write wins), and `tryTakeWindow` returns the pending window and clears
the ready token, or returns nothing when the token is not set. -/

/-- Specification side: publication into the one-place mailbox. -/
def specPublish (w : Window) (_pending : Option Window) : Option Window := some w

/-- Specification side: `tryTakeWindow`, giving the new mailbox and the result. -/
def specTryTakeWindow (pending : Option Window) : Option Window × Option Window :=
  (none, pending)

/-- Specification side: the result of every poll, computed by the mailbox from the
publications and the positions of the polls alone. -/
def specPollResults : List Obs → Option Window → List (Option Window)
  | [], _ => []
  | Obs.published w :: t, p => specPollResults t (specPublish w p)
  | Obs.took _ :: t, p => (specTryTakeWindow p).2 :: specPollResults t (specTryTakeWindow p).1
  | Obs.idle :: t, p => (specTryTakeWindow p).2 :: specPollResults t (specTryTakeWindow p).1
  | Obs.quiet :: t, p => specPollResults t p

/-! ## Windows of measurements -/

/-- An accumulator at a window boundary: nothing counted, nothing summed. -/
def windowStart (g : Globals) : Prop :=
  g.acqCounter = 0 ∧ g.acqHolder = 0 ∧ g.erroneousZeroCrossing = 0

instance (g : Globals) : Decidable (windowStart g) := by
  unfold windowStart; infer_instance

/-- The run `pre` of period measurements from the reset state ends at a window boundary: it
is empty, or its last ISR call published a window. -/
def atWindowBoundary (pre : List Nat) : Prop :=
  pre = [] ∨ (firings pre resetState).getLast? = some true

/-- The measurements `w`, fed to the ISR from state `g`, make up exactly one window: the last
ISR call publishes and no earlier one does. -/
def isWindow (w : List Nat) (g : Globals) : Prop :=
  firings w g = List.replicate (w.length - 1) false ++ [true]

/-- Cycle count of a list of measurements: the valid ones plus the pairs of erroneous ones. -/
def cycleCount (l : List Nat) : Nat := validCount l + errCount l / 2

/-- The invariant of the states reachable from the reset state by period events. -/
def reachInv (g : Globals) : Prop :=
  0 ≤ g.acqCounter ∧ g.acqCounter ≤ 59 ∧
  0 ≤ g.erroneousZeroCrossing ∧ g.erroneousZeroCrossing ≤ 2 * g.acqCounter + 1 ∧
  (2 * g.acqCounter ≤ g.erroneousZeroCrossing → g.acqHolder = 0) ∧
  0 ≤ g.acqErrZeroCross ∧ g.acqErrZeroCross ≤ 120 ∧
  (120 ≤ g.acqErrZeroCross → g.acqOut = 0)

/-! ## Basic facts about the embedding -/

theorem wrapInt16_eq (x : Int) (h1 : -32768 ≤ x) (h2 : x < 32768) : wrapInt16 x = x := by
  unfold wrapInt16; omega

theorem ISR_periodRegs (c : Nat) (g : Globals) : (ISR (periodRegs c) g).2 = periodBranch c g := by
  simp [ISR, periodRegs]

theorem ISR_zeroCrossRegs (p : Nat) (g : Globals) :
    (ISR (zeroCrossRegs p) g).2 = zeroCrossBranch p g := by
  simp [ISR, zeroCrossRegs]

theorem runStmts_publishStmts (g : Globals) :
    runStmts publishStmts g =
      { g with acqCounter := 0, acqOut := g.acqHolder, acqGate := true, acqHolder := 0,
               acqErrZeroCross := g.erroneousZeroCrossing, erroneousZeroCrossing := 0 } := rfl

theorem runPeriods_nil (g : Globals) : runPeriods [] g = g := rfl

theorem runPeriods_cons (c : Nat) (l : List Nat) (g : Globals) :
    runPeriods (c :: l) g = runPeriods l (periodBranch c g) := by
  simp [runPeriods, ISR_periodRegs]

theorem runPeriods_append (l1 l2 : List Nat) (g : Globals) :
    runPeriods (l1 ++ l2) g = runPeriods l2 (runPeriods l1 g) := by
  simp [runPeriods, List.foldl_append]

theorem runPeriods_snoc (l : List Nat) (c : Nat) (g : Globals) :
    runPeriods (l ++ [c]) g = periodBranch c (runPeriods l g) := by
  rw [runPeriods_append, runPeriods_cons, runPeriods_nil]

theorem firings_append (l1 l2 : List Nat) (g : Globals) :
    firings (l1 ++ l2) g = firings l1 g ++ firings l2 (runPeriods l1 g) := by
  induction l1 generalizing g with
  | nil => rfl
  | cons c cs ih => simp [firings, ih, runPeriods_cons, ISR_periodRegs]

theorem firings_length (l : List Nat) (g : Globals) : (firings l g).length = l.length := by
  induction l generalizing g with
  | nil => rfl
  | cons c cs ih => simp [firings, ih]

theorem periodBranch_of_fires (c : Nat) (g : Globals) (h : fires c g = true) :
    periodBranch c g =
      { g with acqCounter := 0, acqOut := (accumulate (measurementHolder c) g).acqHolder,
               acqGate := true, acqHolder := 0,
               acqErrZeroCross := (accumulate (measurementHolder c) g).erroneousZeroCrossing,
               erroneousZeroCrossing := 0 } := by
  have h1 : (accumulate (measurementHolder c) g).acqCounter ≥ MAINS_FREQ := by
    simpa [fires] using h
  have h2 : (accumulate (measurementHolder c) g).acqGate = g.acqGate ∧
      (accumulate (measurementHolder c) g).acqOut = g.acqOut ∧
      (accumulate (measurementHolder c) g).missedCycle = g.missedCycle ∧
      (accumulate (measurementHolder c) g).acqErrZeroCross = g.acqErrZeroCross := by
    unfold accumulate; dsimp only; split_ifs <;> simp
  unfold periodBranch publishIfFull
  rw [if_pos h1, runStmts_publishStmts]
  obtain ⟨a, b, d, e⟩ := h2
  simp [a, b, d, e]

theorem periodBranch_of_not_fires (c : Nat) (g : Globals) (h : fires c g = false) :
    periodBranch c g = accumulate (measurementHolder c) g := by
  have h1 : ¬ (accumulate (measurementHolder c) g).acqCounter ≥ MAINS_FREQ := by
    simpa [fires] using h
  unfold periodBranch publishIfFull
  rw [if_neg h1]

theorem windowStart_of_fires (c : Nat) (g : Globals) (h : fires c g = true) :
    windowStart (periodBranch c g) := by
  rw [periodBranch_of_fires c g h]; simp [windowStart]

theorem windowStart_resetState : windowStart resetState := by
  simp [windowStart, resetState]

/-! ## Counting the measurements of a window -/

theorem validCount_snoc (l : List Nat) (c : Nat) :
    validCount (l ++ [c]) = validCount l + (if isValid c = true then 1 else 0) := by
  unfold validCount
  by_cases h : isValid c = true <;> simp [List.filter_append, List.filter_cons, h]

theorem errCount_snoc (l : List Nat) (c : Nat) :
    errCount (l ++ [c]) = errCount l + (if isErroneous c = true then 1 else 0) := by
  unfold errCount
  by_cases h : isErroneous c = true <;> simp [List.filter_append, List.filter_cons, h]

theorem validSum_snoc (l : List Nat) (c : Nat) :
    validSum (l ++ [c]) = validSum l + (if isValid c = true then measurementHolder c else 0) := by
  unfold validSum
  by_cases h : isValid c = true <;> simp [List.filter_append, List.filter_cons, h]

theorem cycleCount_snoc_ge (l : List Nat) (c : Nat) : cycleCount l ≤ cycleCount (l ++ [c]) := by
  unfold cycleCount
  rw [validCount_snoc, errCount_snoc]
  split_ifs <;> omega

theorem cycleCount_snoc_le (l : List Nat) (c : Nat) : cycleCount (l ++ [c]) ≤ cycleCount l + 1 := by
  unfold cycleCount
  rw [validCount_snoc, errCount_snoc]
  by_cases h : isErroneous c = true
  · have hv : isValid c = false := by simp [isValid, h]
    simp [h, hv]; omega
  · have hv : isValid c = true := by simpa [isValid] using h
    simp [h, hv]; omega

theorem accumulate_valid (c : Nat) (g : Globals) (h : isValid c = true) :
    accumulate (measurementHolder c) g =
      { g with acqCounter := wrapInt16 (g.acqCounter + 1),
               acqHolder := g.acqHolder + measurementHolder c } := by
  have h1 : ¬ (measurementHolder c < 130 ∧ measurementHolder c > 110) := by
    intro hh
    have : isErroneous c = true := by unfold isErroneous; exact decide_eq_true hh
    simp [isValid, this] at h
  unfold accumulate
  rw [if_neg h1]

theorem accumulate_erroneous (c : Nat) (g : Globals) (h : isErroneous c = true) :
    accumulate (measurementHolder c) g =
      if Int.tmod (wrapInt16 (g.erroneousZeroCrossing + 1)) 2 = 0
          ∧ wrapInt16 (g.erroneousZeroCrossing + 1) > 0 then
        { g with erroneousZeroCrossing := wrapInt16 (g.erroneousZeroCrossing + 1),
                 acqCounter := wrapInt16 (g.acqCounter + 1) }
      else { g with erroneousZeroCrossing := wrapInt16 (g.erroneousZeroCrossing + 1) } := by
  have h1 : measurementHolder c < 130 ∧ measurementHolder c > 110 := by
    unfold isErroneous at h; exact of_decide_eq_true h
  unfold accumulate
  rw [if_pos h1]

/-- One classification step on an open window, in closed form. -/
theorem accumulate_open (g0 : Globals) (l : List Nat) (c : Nat) (h : cycleCount l < 60) :
    accumulate (measurementHolder c)
        { g0 with acqCounter := (cycleCount l : Int),
                  erroneousZeroCrossing := (errCount l : Int), acqHolder := validSum l } =
      { g0 with acqCounter := (cycleCount (l ++ [c]) : Int),
                erroneousZeroCrossing := (errCount (l ++ [c]) : Int),
                acqHolder := validSum (l ++ [c]) } := by
  have hE : errCount l < 120 := by unfold cycleCount at h; omega
  by_cases he : isErroneous c = true
  · have hv : isValid c = false := by simp [isValid, he]
    rw [accumulate_erroneous c _ he]
    have hw : wrapInt16 ((errCount l : Int) + 1) = (errCount l : Int) + 1 :=
      wrapInt16_eq _ (by omega) (by omega)
    have hc : wrapInt16 ((cycleCount l : Int) + 1) = (cycleCount l : Int) + 1 :=
      wrapInt16_eq _ (by omega) (by omega)
    have ht : Int.tmod ((errCount l : Int) + 1) 2 = ((errCount l : Int) + 1) % 2 :=
      Int.tmod_eq_emod (by omega) (by omega)
    have hvs : validSum (l ++ [c]) = validSum l := by rw [validSum_snoc]; simp [hv]
    have hes : errCount (l ++ [c]) = errCount l + 1 := by rw [errCount_snoc]; simp [he]
    have hvc : validCount (l ++ [c]) = validCount l := by rw [validCount_snoc]; simp [hv]
    dsimp only
    rw [hw, hc, ht, hvs, hes]
    by_cases hp : ((errCount l : Int) + 1) % 2 = 0
    · have hcc : cycleCount (l ++ [c]) = cycleCount l + 1 := by
        unfold cycleCount; rw [hvc, hes]; omega
      rw [if_pos ⟨hp, by omega⟩, hcc]
      simp
    · have hcc : cycleCount (l ++ [c]) = cycleCount l := by
        unfold cycleCount; rw [hvc, hes]; omega
      rw [if_neg (fun hh => hp hh.1), hcc]
      simp
  · have hv : isValid c = true := by simpa [isValid] using he
    have he2 : isErroneous c = false := by simpa using he
    rw [accumulate_valid c _ hv]
    have hc : wrapInt16 ((cycleCount l : Int) + 1) = (cycleCount l : Int) + 1 :=
      wrapInt16_eq _ (by omega) (by omega)
    have hvs : validSum (l ++ [c]) = validSum l + measurementHolder c := by
      rw [validSum_snoc]; simp [hv]
    have hes : errCount (l ++ [c]) = errCount l := by rw [errCount_snoc]; simp [he2]
    have hcc : cycleCount (l ++ [c]) = cycleCount l + 1 := by
      unfold cycleCount; rw [validCount_snoc, hes]; simp [hv]; omega
    dsimp only
    rw [hc, hvs, hes, hcc]
    simp

/-- A run that stays below 60 cycles from a window boundary publishes nothing and leaves
the counts and the sum of its measurements in the accumulator. -/
theorem runPeriods_open (g : Globals) (l : List Nat) (hg : windowStart g)
    (h : cycleCount l < 60) :
    runPeriods l g =
        { g with acqCounter := (cycleCount l : Int),
                 erroneousZeroCrossing := (errCount l : Int), acqHolder := validSum l }
      ∧ firings l g = List.replicate l.length false := by
  induction l using List.reverseRecOn with
  | nil =>
    obtain ⟨h1, h2, h3⟩ := hg
    refine ⟨?_, rfl⟩
    cases g
    simp_all [runPeriods, cycleCount, validCount, errCount, validSum]
  | append_singleton l c ih =>
    have hl : cycleCount l < 60 := lt_of_le_of_lt (cycleCount_snoc_ge l c) h
    obtain ⟨ih1, ih2⟩ := ih hl
    have hacc := accumulate_open g l c hl
    have hnf : fires c (runPeriods l g) = false := by
      unfold fires
      rw [ih1, hacc]
      simp only [MAINS_FREQ, decide_eq_false_iff_not]
      omega
    constructor
    · rw [runPeriods_snoc, periodBranch_of_not_fires _ _ hnf, ih1, hacc]
    · rw [firings_append, ih2]
      simp [firings, hnf, List.replicate_succ']

theorem fires_open (g : Globals) (l : List Nat) (c : Nat) (hg : windowStart g)
    (h : cycleCount l < 60) :
    fires c (runPeriods l g) = decide (60 ≤ cycleCount (l ++ [c])) := by
  unfold fires
  rw [(runPeriods_open g l hg h).1, accumulate_open g l c h]
  simp only [MAINS_FREQ, ge_iff_le]
  congr 1
  apply propext
  constructor <;> intro hh <;> omega

/-- The ISR call that brings the cycle count to 60 publishes the window. -/
theorem runPeriods_close (g : Globals) (l : List Nat) (c : Nat) (hg : windowStart g)
    (h : cycleCount l < 60) (h2 : 60 ≤ cycleCount (l ++ [c])) :
    runPeriods (l ++ [c]) g =
      { g with acqCounter := 0, acqOut := validSum (l ++ [c]), acqGate := true, acqHolder := 0,
               acqErrZeroCross := (errCount (l ++ [c]) : Int), erroneousZeroCrossing := 0 } := by
  have hf : fires c (runPeriods l g) = true := by
    rw [fires_open g l c hg h]; simpa using h2
  rw [runPeriods_snoc, periodBranch_of_fires _ _ hf, (runPeriods_open g l hg h).1,
    accumulate_open g l c h]

theorem cycleCount_lt_of_firings (g : Globals) (l : List Nat) (hg : windowStart g)
    (h : firings l g = List.replicate l.length false) : cycleCount l < 60 := by
  induction l using List.reverseRecOn with
  | nil => simp [cycleCount, validCount, errCount]
  | append_singleton l c ih =>
    rw [firings_append, List.length_append, List.length_singleton, List.replicate_succ'] at h
    obtain ⟨h1, h2⟩ := List.append_inj' h (by simp [firings])
    have hl := ih h1
    have hf : fires c (runPeriods l g) = false := by simpa [firings] using h2
    rw [fires_open g l c hg hl] at hf
    simpa using hf

/-- A window is a run whose cycle count reaches 60 with its last measurement. -/
theorem isWindow_iff (g : Globals) (w : List Nat) (hg : windowStart g) :
    isWindow w g ↔ ∃ l c, w = l ++ [c] ∧ cycleCount l < 60 ∧ cycleCount (l ++ [c]) = 60 := by
  constructor
  · intro h
    rcases List.eq_nil_or_concat w with rfl | ⟨l, c, rfl⟩
    · simp [isWindow, firings] at h
    · rw [List.concat_eq_append] at h ⊢
      unfold isWindow at h
      rw [firings_append, List.length_append, List.length_singleton, Nat.add_sub_cancel] at h
      obtain ⟨h1, h2⟩ := List.append_inj' h (by simp [firings])
      have hl := cycleCount_lt_of_firings g l hg h1
      have hf : fires c (runPeriods l g) = true := by simpa [firings] using h2
      rw [fires_open g l c hg hl] at hf
      have h60 : 60 ≤ cycleCount (l ++ [c]) := by simpa using hf
      have := cycleCount_snoc_le l c
      exact ⟨l, c, rfl, hl, by omega⟩
  · rintro ⟨l, c, rfl, hl, h60⟩
    unfold isWindow
    rw [firings_append, List.length_append, List.length_singleton, Nat.add_sub_cancel,
      (runPeriods_open g l hg hl).2]
    have hf : fires c (runPeriods l g) = true := by
      rw [fires_open g l c hg hl]; simp [h60]
    simp [firings, hf]

/-- The published data of a window, in terms of the counts of its measurements. -/
theorem window_published (g : Globals) (w : List Nat) (hg : windowStart g)
    (hw : isWindow w g) :
    cycleCount w = 60 ∧
    runPeriods w g =
      { g with acqCounter := 0, acqOut := validSum w, acqGate := true, acqHolder := 0,
               acqErrZeroCross := (errCount w : Int), erroneousZeroCrossing := 0 } := by
  obtain ⟨l, c, rfl, hl, h60⟩ := (isWindow_iff g w hg).1 hw
  exact ⟨h60, runPeriods_close g l c hg hl (by omega)⟩

/-- A run from the reset state that ends at a window boundary leaves an empty accumulator. -/
theorem windowStart_of_atWindowBoundary (pre : List Nat) (h : atWindowBoundary pre) :
    windowStart (runPeriods pre resetState) := by
  rcases h with rfl | h
  · exact windowStart_resetState
  · rcases List.eq_nil_or_concat pre with rfl | ⟨l, c, rfl⟩
    · simp [firings] at h
    · rw [List.concat_eq_append] at h ⊢
      rw [firings_append] at h
      have hf : fires c (runPeriods l resetState) = true := by simpa [firings] using h
      rw [runPeriods_snoc]
      exact windowStart_of_fires _ _ hf

/-! ## Classification of concrete readings and counts of simple lists -/

/-- The test of line 193 in integer arithmetic. -/
theorem isErroneous_iff (c : Nat) :
    isErroneous c = true ↔ 110 * c < 20000000 ∧ 20000000 < 130 * c := by
  unfold isErroneous measurementHolder XTAL_FREQ
  rw [decide_eq_true_iff]
  rcases Nat.eq_zero_or_pos c with rfl | hc
  · norm_num
  · have hq : (0 : ℚ) < (c : ℚ) := by exact_mod_cast hc
    rw [div_lt_iff₀ hq, gt_iff_lt, lt_div_iff₀ hq]
    constructor
    · rintro ⟨h1, h2⟩
      exact ⟨by exact_mod_cast h2, by exact_mod_cast h1⟩
    · rintro ⟨h1, h2⟩
      exact ⟨by exact_mod_cast h2, by exact_mod_cast h1⟩

theorem isValid_iff (c : Nat) :
    isValid c = true ↔ ¬ (110 * c < 20000000 ∧ 20000000 < 130 * c) := by
  rw [← isErroneous_iff]; simp [isValid]

theorem counts_of_allValid (l : List Nat) (h : ∀ c ∈ l, isValid c = true) :
    validCount l = l.length ∧ errCount l = 0 ∧ validSum l = (l.map measurementHolder).sum
      ∧ cycleCount l = l.length := by
  have h1 : l.filter isValid = l := List.filter_eq_self.2 h
  have h2 : l.filter isErroneous = [] := by
    rw [List.filter_eq_nil_iff]
    intro a ha
    have := h a ha
    simpa [isValid] using this
  simp [validCount, errCount, validSum, cycleCount, h1, h2]

theorem validCount_cons (c : Nat) (l : List Nat) :
    validCount (c :: l) = (if isValid c = true then 1 else 0) + validCount l := by
  unfold validCount
  by_cases h : isValid c = true <;> simp [List.filter_cons, h, Nat.add_comm]

theorem errCount_cons (c : Nat) (l : List Nat) :
    errCount (c :: l) = (if isErroneous c = true then 1 else 0) + errCount l := by
  unfold errCount
  by_cases h : isErroneous c = true <;> simp [List.filter_cons, h, Nat.add_comm]

theorem validSum_cons (c : Nat) (l : List Nat) :
    validSum (c :: l) = (if isValid c = true then measurementHolder c else 0) + validSum l := by
  unfold validSum
  by_cases h : isValid c = true <;> simp [List.filter_cons, h]

theorem cycleCount_append_ge (l1 l2 : List Nat) : cycleCount l1 ≤ cycleCount (l1 ++ l2) := by
  induction l2 using List.reverseRecOn with
  | nil => simp
  | append_singleton l c ih =>
    rw [← List.append_assoc]
    exact le_trans ih (cycleCount_snoc_ge _ c)

theorem cycleCount_take_le (k : Nat) (l : List Nat) : cycleCount (l.take k) ≤ cycleCount l := by
  have := cycleCount_append_ge (l.take k) (l.drop k)
  rwa [List.take_append_drop] at this

theorem errCount_le_of_window (l : List Nat) (c : Nat) (h : cycleCount l < 60) :
    errCount (l ++ [c]) ≤ 120 := by
  rw [errCount_snoc]
  unfold cycleCount at h
  split_ifs <;> omega

/-! ## The invariant of the reachable states -/

theorem accumulate_reachInv (c : Nat) (g a : Globals) (h : reachInv g)
    (ha : a = accumulate (measurementHolder c) g) :
    g.acqCounter ≤ a.acqCounter ∧ a.acqCounter ≤ 60 ∧
    0 ≤ a.erroneousZeroCrossing ∧ a.erroneousZeroCrossing ≤ 2 * a.acqCounter + 1 ∧
    (a.acqCounter = 60 → a.erroneousZeroCrossing ≤ 120) ∧
    (2 * a.acqCounter ≤ a.erroneousZeroCrossing → a.acqHolder = 0) ∧
    a.acqErrZeroCross = g.acqErrZeroCross ∧ a.acqOut = g.acqOut ∧ a.acqGate = g.acqGate := by
  obtain ⟨h1, h2, h3, h4, h5, -, -, -⟩ := h
  have hc : wrapInt16 (g.acqCounter + 1) = g.acqCounter + 1 :=
    wrapInt16_eq _ (by omega) (by omega)
  by_cases he : isErroneous c = true
  · have hw : wrapInt16 (g.erroneousZeroCrossing + 1) = g.erroneousZeroCrossing + 1 :=
      wrapInt16_eq _ (by omega) (by omega)
    have ht : Int.tmod (g.erroneousZeroCrossing + 1) 2 = (g.erroneousZeroCrossing + 1) % 2 :=
      Int.tmod_eq_emod (by omega) (by omega)
    rw [accumulate_erroneous c g he, hw, hc, ht] at ha
    by_cases hp : (g.erroneousZeroCrossing + 1) % 2 = 0
    · rw [if_pos ⟨hp, by omega⟩] at ha
      subst ha
      refine ⟨?_, ?_, ?_, ?_, ?_, ?_, rfl, rfl, rfl⟩ <;> dsimp only <;> try omega
      intro hh; exact h5 (by omega)
    · rw [if_neg (fun hh => hp hh.1)] at ha
      subst ha
      refine ⟨?_, ?_, ?_, ?_, ?_, ?_, rfl, rfl, rfl⟩ <;> dsimp only <;> try omega
      intro hh; exact h5 (by omega)
  · have hv : isValid c = true := by simpa [isValid] using he
    rw [accumulate_valid c g hv, hc] at ha
    subst ha
    refine ⟨?_, ?_, ?_, ?_, ?_, ?_, rfl, rfl, rfl⟩ <;> dsimp only <;> omega

theorem periodBranch_reachInv (c : Nat) (g : Globals) (h : reachInv g) :
    reachInv (periodBranch c g) := by
  have ha := accumulate_reachInv c g _ h rfl
  obtain ⟨-, -, -, -, -, h6, h7, h8⟩ := h
  obtain ⟨a1, a2, a3, a4, a5, a6, a7, a8, -⟩ := ha
  by_cases hf : fires c g = true
  · have h60 : (accumulate (measurementHolder c) g).acqCounter ≥ 60 := by
      simpa [fires, MAINS_FREQ] using hf
    rw [periodBranch_of_fires c g hf]
    refine ⟨by simp, by simp, by simp, by simp, by simp, a3, a5 (by omega), ?_⟩
    intro hh
    exact a6 (by dsimp only at hh; omega)
  · have hf2 : fires c g = false := by simpa using hf
    have h60 : ¬ (accumulate (measurementHolder c) g).acqCounter ≥ 60 := by
      simpa [fires, MAINS_FREQ] using hf2
    rw [periodBranch_of_not_fires c g hf2]
    exact ⟨by omega, by omega, a3, a4, a6, by omega, by omega, by rw [a7, a8]; exact h8⟩

theorem reachInv_resetState : reachInv resetState := by
  simp [reachInv, resetState]

theorem reachInv_runPeriods (l : List Nat) : reachInv (runPeriods l resetState) := by
  induction l using List.reverseRecOn with
  | nil => exact reachInv_resetState
  | append_singleton l c ih =>
    rw [runPeriods_snoc]; exact periodBranch_reachInv c _ ih

/-! ## Windows of a simple shape -/

theorem validCount_replicate (n c : Nat) :
    validCount (List.replicate n c) = if isValid c = true then n else 0 := by
  unfold validCount
  rw [List.filter_replicate]
  split_ifs <;> simp

theorem errCount_replicate (n c : Nat) :
    errCount (List.replicate n c) = if isErroneous c = true then n else 0 := by
  unfold errCount
  rw [List.filter_replicate]
  split_ifs <;> simp

/-- Sixty valid measurements from a window boundary are exactly one window. -/
theorem allValid_window (g : Globals) (l : List Nat) (hg : windowStart g)
    (hlen : l.length = 60) (hval : ∀ c ∈ l, isValid c = true) :
    isWindow l g ∧
    ∀ k, k < 60 → runPeriods (l.take k) g =
      { g with acqCounter := (k : Int), erroneousZeroCrossing := 0,
               acqHolder := ((l.take k).map measurementHolder).sum } := by
  constructor
  · rw [isWindow_iff g l hg]
    rcases List.eq_nil_or_concat l with rfl | ⟨L, b, rfl⟩
    · simp at hlen
    · rw [List.concat_eq_append] at hlen hval ⊢
      have hL : L.length = 59 := by simpa using hlen
      have h1 := counts_of_allValid L (fun c hc => hval c (by simp [hc]))
      have h2 := counts_of_allValid (L ++ [b]) hval
      refine ⟨L, b, rfl, ?_, ?_⟩
      · rw [h1.2.2.2, hL]; decide
      · rw [h2.2.2.2, hlen]
  · intro k hk
    have hv : ∀ c ∈ l.take k, isValid c = true := fun c hc => hval c (List.mem_of_mem_take hc)
    have h1 := counts_of_allValid (l.take k) hv
    have hlk : (l.take k).length = k := by
      rw [List.length_take, hlen]; omega
    have ho := (runPeriods_open g (l.take k) hg (by rw [h1.2.2.2, hlk]; exact hk)).1
    rw [ho, h1.2.2.2, h1.2.1, h1.2.2.1, hlk]
    simp

/-- Two erroneous measurements followed by 59 valid ones, from a window boundary, are
exactly one window. -/
theorem paired_window (g : Globals) (e1 e2 : Nat) (l : List Nat) (hg : windowStart g)
    (h1 : isErroneous e1 = true) (h2 : isErroneous e2 = true) (hlen : l.length = 59)
    (hval : ∀ c ∈ l, isValid c = true) :
    isWindow (e1 :: e2 :: l) g ∧ validCount (e1 :: e2 :: l) = 59 ∧ errCount (e1 :: e2 :: l) = 2
      ∧ validSum (e1 :: e2 :: l) = (l.map measurementHolder).sum
      ∧ ∀ k, k ≤ 60 → cycleCount ((e1 :: e2 :: l).take k) < 60 := by
  have v1 : isValid e1 = false := by simp [isValid, h1]
  have v2 : isValid e2 = false := by simp [isValid, h2]
  have hc := counts_of_allValid l hval
  have hcc : ∀ x : List Nat, (∀ c ∈ x, isValid c = true) →
      cycleCount (e1 :: e2 :: x) = x.length + 1 := by
    intro x hx
    have := counts_of_allValid x hx
    unfold cycleCount
    rw [validCount_cons, validCount_cons, errCount_cons, errCount_cons, this.1, this.2.1]
    simp [h1, h2, v1, v2]
  refine ⟨?_, ?_, ?_, ?_, ?_⟩
  · rw [isWindow_iff g _ hg]
    rcases List.eq_nil_or_concat l with rfl | ⟨L, b, rfl⟩
    · simp at hlen
    · rw [List.concat_eq_append] at hlen hval ⊢
      have hL : L.length = 58 := by simpa using hlen
      refine ⟨e1 :: e2 :: L, b, by simp, ?_, ?_⟩
      · rw [hcc L (fun c hc => hval c (by simp [hc])), hL]; decide
      · have : e1 :: e2 :: L ++ [b] = e1 :: e2 :: (L ++ [b]) := by simp
        rw [this, hcc _ hval, hlen]
  · rw [validCount_cons, validCount_cons, hc.1, hlen]; simp [v1, v2]
  · rw [errCount_cons, errCount_cons, hc.2.1]; simp [h1, h2]
  · rw [validSum_cons, validSum_cons, hc.2.2.1]; simp [v1, v2]
  · intro k hk
    have h60 : cycleCount ((e1 :: e2 :: l).take 60) < 60 := by
      have : (e1 :: e2 :: l).take 60 = e1 :: e2 :: l.take 58 := by simp
      rw [this, hcc _ (fun c hc => hval c (List.mem_of_mem_take hc)), List.length_take, hlen]
      decide
    have hpre : ((e1 :: e2 :: l).take 60).take k = (e1 :: e2 :: l).take k := by
      rw [List.take_take, Nat.min_eq_left hk]
    have := cycleCount_take_le k ((e1 :: e2 :: l).take 60)
    rw [hpre] at this
    omega

/-- A run of 120 equal erroneous readings from a window boundary is exactly one window. -/
theorem allErroneous_window (g : Globals) (e : Nat) (hg : windowStart g)
    (he : isErroneous e = true) :
    isWindow (List.replicate 120 e) g ∧ validCount (List.replicate 120 e) = 0
      ∧ errCount (List.replicate 120 e) = 120 := by
  have hv : isValid e = false := by simp [isValid, he]
  refine ⟨?_, ?_, ?_⟩
  · rw [isWindow_iff g _ hg]
    refine ⟨List.replicate 119 e, e, List.replicate_succ' 119 e, ?_, ?_⟩
    · unfold cycleCount
      rw [validCount_replicate, errCount_replicate]; simp [he, hv]
    · rw [← List.replicate_succ' 119 e]
      unfold cycleCount
      rw [validCount_replicate, errCount_replicate]; simp [he, hv]
  · rw [validCount_replicate]; simp [hv]
  · rw [errCount_replicate]; simp [he]

/-! ## The claims about the window accumulator -/

/-- Claim C1 (window completion).  From the reset state, sixty period measurements that the
ISR classifies as valid publish exactly one window: the gate is false after each of the
first 59 ISR calls (and before the first), only the 60th call takes the publication branch,
after it the gate is set, the published `acqErrZeroCross` is 0, the published `acqOut` is the
sum of the sixty values `measurementHolder`, and the accumulator is back at
`acqCounter = 0`, `acqHolder = 0`, `erroneousZeroCrossing = 0`. -/
theorem C1_window_completion (l : List Nat) (hlen : l.length = 60)
    (hval : ∀ c ∈ l, isValid c = true) :
    (∀ k, k < 60 → (runPeriods (l.take k) resetState).acqGate = false) ∧
    firings l resetState = List.replicate 59 false ++ [true] ∧
    (runPeriods l resetState).acqGate = true ∧
    (runPeriods l resetState).acqErrZeroCross = 0 ∧
    (runPeriods l resetState).acqOut = (l.map measurementHolder).sum ∧
    (runPeriods l resetState).acqCounter = 0 ∧
    (runPeriods l resetState).acqHolder = 0 ∧
    (runPeriods l resetState).erroneousZeroCrossing = 0 := by
  obtain ⟨hw, hk⟩ := allValid_window resetState l windowStart_resetState hlen hval
  obtain ⟨-, hp⟩ := window_published resetState l windowStart_resetState hw
  have hc := counts_of_allValid l hval
  refine ⟨?_, ?_, ?_, ?_, ?_, ?_, ?_, ?_⟩
  · intro k hk60
    rw [hk k hk60]; rfl
  · have := hw
    unfold isWindow at this
    rwa [hlen] at this
  all_goals rw [hp]
  all_goals simp [hc.2.1, hc.2.2.1]

/-- Witness of C1: sixty readings of 333333 timer counts (about 60.00006 Hz). -/
theorem C1_window_completion_witness :
    (List.replicate 60 333333).length = 60 ∧
    (runPeriods (List.replicate 60 333333) resetState).acqGate = true ∧
    (runPeriods (List.replicate 60 333333) resetState).acqErrZeroCross = 0 :=
  have h := C1_window_completion (List.replicate 60 333333) (by simp)
    (by
      intro c hc
      rw [List.eq_of_mem_replicate hc, isValid_iff]
      decide)
  ⟨by simp, h.2.2.1, h.2.2.2.1⟩

/-- Claim C2 (erroneous pairing).  From the reset state, two measurements in the erroneous
band followed by 59 valid ones publish exactly one window, with the 61st ISR call: the gate
is false after each of the first 60 calls, the first erroneous measurement leaves
`acqCounter = 0`, the second makes it 1 and leaves `acqHolder = 0`, the cycle count is 59
before the last call, and the last call publishes `acqErrZeroCross = 2` and an `acqOut` that
is the sum of the values of the 59 valid measurements alone. -/
theorem C2_erroneous_pairing (e1 e2 : Nat) (l : List Nat)
    (h1 : isErroneous e1 = true) (h2 : isErroneous e2 = true) (hlen : l.length = 59)
    (hval : ∀ c ∈ l, isValid c = true) :
    firings (e1 :: e2 :: l) resetState = List.replicate 60 false ++ [true] ∧
    (∀ k, k ≤ 60 → (runPeriods ((e1 :: e2 :: l).take k) resetState).acqGate = false) ∧
    (runPeriods [e1] resetState).acqCounter = 0 ∧
    (runPeriods [e1, e2] resetState).acqCounter = 1 ∧
    (runPeriods [e1, e2] resetState).acqHolder = 0 ∧
    (runPeriods ((e1 :: e2 :: l).take 60) resetState).acqCounter = 59 ∧
    (runPeriods (e1 :: e2 :: l) resetState).acqGate = true ∧
    (runPeriods (e1 :: e2 :: l) resetState).acqErrZeroCross = 2 ∧
    (runPeriods (e1 :: e2 :: l) resetState).acqOut = (l.map measurementHolder).sum := by
  obtain ⟨hw, hv, he, hs, hk⟩ :=
    paired_window resetState e1 e2 l windowStart_resetState h1 h2 hlen hval
  obtain ⟨-, hp⟩ := window_published resetState _ windowStart_resetState hw
  have v1 : isValid e1 = false := by simp [isValid, h1]
  have v2 : isValid e2 = false := by simp [isValid, h2]
  have hopen : ∀ k, k ≤ 60 → runPeriods ((e1 :: e2 :: l).take k) resetState =
      { resetState with
          acqCounter := (cycleCount ((e1 :: e2 :: l).take k) : Int),
          erroneousZeroCrossing := (errCount ((e1 :: e2 :: l).take k) : Int),
          acqHolder := validSum ((e1 :: e2 :: l).take k) } :=
    fun k hk60 => (runPeriods_open resetState _ windowStart_resetState (hk k hk60)).1
  have t1 : (e1 :: e2 :: l).take 1 = [e1] := by simp
  have t2 : (e1 :: e2 :: l).take 2 = [e1, e2] := by simp
  have t60 : (e1 :: e2 :: l).take 60 = e1 :: e2 :: l.take 58 := by simp
  have o1 := hopen 1 (by decide)
  have o2 := hopen 2 (by decide)
  have o60 := hopen 60 (by decide)
  rw [t1] at o1
  rw [t2] at o2
  have hc58 := counts_of_allValid (l.take 58) (fun c hc => hval c (List.mem_of_mem_take hc))
  have hl58 : (l.take 58).length = 58 := by rw [List.length_take, hlen]; decide
  refine ⟨?_, ?_, ?_, ?_, ?_, ?_, ?_, ?_, ?_⟩
  · have := hw
    unfold isWindow at this
    simpa [hlen] using this
  · intro k hk60
    rw [hopen k hk60]; rfl
  · rw [o1]
    simp [cycleCount, validCount_cons, errCount_cons, validCount, errCount, h1, v1]
  · rw [o2]
    simp [cycleCount, validCount_cons, errCount_cons, validCount, errCount, h1, v1, h2, v2]
  · rw [o2]
    simp [validSum_cons, validSum, v1, v2]
  · rw [o60, t60]
    simp [cycleCount, validCount_cons, errCount_cons, h1, v1, h2, v2, hc58.1, hc58.2.1, hl58]
  · rw [hp]
  · rw [hp]; simp [he]
  · rw [hp]; simp [hs]

/-- Witness of C2: two readings of 166667 counts (about 120 Hz) and 59 readings of 333333. -/
theorem C2_erroneous_pairing_witness :
    isErroneous 166667 = true ∧ (List.replicate 59 333333).length = 59 ∧
    (runPeriods (166667 :: 166667 :: List.replicate 59 333333) resetState).acqErrZeroCross = 2 :=
  have h := C2_erroneous_pairing 166667 166667 (List.replicate 59 333333)
    (by rw [isErroneous_iff]; decide) (by rw [isErroneous_iff]; decide) (by simp)
    (by
      intro c hc
      rw [List.eq_of_mem_replicate hc, isValid_iff]
      decide)
  ⟨by rw [isErroneous_iff]; decide, by simp, h.2.2.2.2.2.2.2.1⟩

theorem mainLoopIter_of_gate (m : MainState) (g : Globals) (h : g.acqGate = true) :
    ((mainLoopIter m g).2.2).map Report.freqHolder
        = some (freqHolder g.acqOut g.acqErrZeroCross) ∧
    (mainLoopIter m g).2.1 =
      { g with acqGate := false, acqOut := 0, acqErrZeroCross := 0, missedCycle := false } := by
  unfold mainLoopIter
  rw [if_pos h]
  dsimp only
  cases hm : g.missedCycle <;> simp [hm]

theorem mainLoopIter_of_not_gate (m : MainState) (g : Globals) (h : g.acqGate = false) :
    mainLoopIter m g = (m, g, none) := by
  unfold mainLoopIter
  simp [h]

theorem validSum_of_const (w : List Nat) (f : ℚ)
    (h : ∀ c ∈ w, isValid c = true → measurementHolder c = f) :
    validSum w = (validCount w : ℚ) * f := by
  unfold validSum validCount
  have : (w.filter isValid).map measurementHolder = List.replicate (w.filter isValid).length f := by
    rw [List.eq_replicate_iff]
    refine ⟨by simp, ?_⟩
    intro b hb
    obtain ⟨c, hc, rfl⟩ := List.mem_map.1 hb
    obtain ⟨hc1, hc2⟩ := List.mem_filter.1 hc
    exact h c hc1 hc2
  rw [this, List.sum_replicate, nsmul_eq_mul]

/-- Claim C3 (frequency derivation).  Take any window the ISR publishes in a run from the
reset state: the measurements `w` that follow a window boundary and end with the next
publication.  If `w` contains a valid measurement, the divisor of line 152,
`MAINS_FREQ - acqErrZeroCross/2`, is the number of valid measurements of `w`, the published
`acqOut` is the sum of their values, and `freqHolder` (also as the polling loop reports it)
is their arithmetic mean over the rationals; if all valid measurements of `w` have the value
`f`, then `freqHolder = f`, however many erroneous measurements are interleaved. -/
theorem C3_frequency_derivation (pre w : List Nat) (m : MainState)
    (hb : atWindowBoundary pre) (hw : isWindow w (runPeriods pre resetState))
    (hv : 1 ≤ validCount w) :
    MAINS_FREQ - Int.tdiv (runPeriods (pre ++ w) resetState).acqErrZeroCross 2
        = (validCount w : Int) ∧
    (runPeriods (pre ++ w) resetState).acqOut = validSum w ∧
    freqHolder (runPeriods (pre ++ w) resetState).acqOut
        (runPeriods (pre ++ w) resetState).acqErrZeroCross = validSum w / (validCount w : ℚ) ∧
    ((mainLoopIter m (runPeriods (pre ++ w) resetState)).2.2).map Report.freqHolder
        = some (validSum w / (validCount w : ℚ)) ∧
    ∀ f : ℚ, (∀ c ∈ w, isValid c = true → measurementHolder c = f) →
      freqHolder (runPeriods (pre ++ w) resetState).acqOut
        (runPeriods (pre ++ w) resetState).acqErrZeroCross = f := by
  have hg := windowStart_of_atWindowBoundary pre hb
  obtain ⟨h60, hp⟩ := window_published _ w hg hw
  rw [runPeriods_append, hp]
  dsimp only
  have hdiv : MAINS_FREQ - Int.tdiv (errCount w : Int) 2 = (validCount w : Int) := by
    rw [Int.tdiv_eq_ediv (by omega) (by omega)]
    unfold cycleCount at h60
    unfold MAINS_FREQ
    omega
  have hfreq : freqHolder (validSum w) (errCount w : Int) = validSum w / (validCount w : ℚ) := by
    unfold freqHolder
    rw [hdiv]
    simp
  refine ⟨hdiv, rfl, hfreq, ?_, ?_⟩
  · rw [(mainLoopIter_of_gate m _ rfl).1]
    dsimp only
    rw [hfreq]
  · intro f hf
    rw [hfreq, validSum_of_const w f hf]
    have hne : (validCount w : ℚ) ≠ 0 := by
      have : 0 < validCount w := hv
      exact_mod_cast this.ne'
    field_simp

/-- Witness of C3: the first window of a run, made of two erroneous readings and 59 valid
readings of 400000 counts each (50 Hz). -/
theorem C3_frequency_derivation_witness :
    atWindowBoundary [] ∧
    freqHolder (runPeriods (166667 :: 166667 :: List.replicate 59 400000) resetState).acqOut
      (runPeriods (166667 :: 166667 :: List.replicate 59 400000) resetState).acqErrZeroCross
      = 50 :=
  have he : isErroneous 166667 = true := by rw [isErroneous_iff]; decide
  have hval : ∀ c ∈ List.replicate 59 400000, isValid c = true := by
    intro c hc
    rw [List.eq_of_mem_replicate hc, isValid_iff]
    decide
  have hp := paired_window resetState 166667 166667 (List.replicate 59 400000)
    windowStart_resetState he he (by simp) hval
  have h := C3_frequency_derivation [] (166667 :: 166667 :: List.replicate 59 400000) mainInit
    (Or.inl rfl) hp.1 (by rw [hp.2.1]; decide)
  ⟨Or.inl rfl, h.2.2.2.2 50 (by
    intro c hc hv
    rcases List.mem_cons.1 hc with rfl | hc
    · simp [isValid, he] at hv
    rcases List.mem_cons.1 hc with rfl | hc
    · simp [isValid, he] at hv
    rw [List.eq_of_mem_replicate hc]
    norm_num [measurementHolder, XTAL_FREQ])⟩

/-- Counterexample to C5 as stated.  The reading `SMT1CPR = 333333` is classified valid and
the ISR, called in the reset state, leaves `acqHolder = 20000000 / 333333` (the implied
frequency, about 60.00006): it has added neither the raw timer count 333333 nor the
duration `333333 / 20000000` to the running sum. -/
theorem C5_raw_period_counterexample :
    isValid 333333 = true ∧
    (ISR (periodRegs 333333) resetState).2.acqHolder = 20000000 / 333333 ∧
    (ISR (periodRegs 333333) resetState).2.acqHolder ≠ resetState.acqHolder + 333333 ∧
    (ISR (periodRegs 333333) resetState).2.acqHolder
      ≠ resetState.acqHolder + 333333 / XTAL_FREQ := by
  have hv : isValid 333333 = true := by rw [isValid_iff]; decide
  have hrun : (ISR (periodRegs 333333) resetState).2
      = { resetState with acqCounter := 1, acqHolder := 20000000 / 333333 } := by
    rw [ISR_periodRegs]
    have h1 : accumulate (measurementHolder 333333) resetState
        = { resetState with acqCounter := 1, acqHolder := 20000000 / 333333 } := by
      rw [accumulate_valid _ _ hv]
      simp [resetState, wrapInt16, measurementHolder, XTAL_FREQ]
    unfold periodBranch publishIfFull
    rw [h1]
    simp [MAINS_FREQ]
  rw [hrun]
  refine ⟨hv, rfl, ?_, ?_⟩ <;> norm_num [resetState, XTAL_FREQ]

/-- Claim C5, amended (valid-measurement accumulation).  In every state reachable from the
reset state, a period measurement classified valid makes lines 205 and 206 increment
`acqCounter` by one and add the implied frequency `_XTAL_FREQ / SMT1CPR` (the value of
`measurementHolder`, not the raw period) to `acqHolder`; a window of sixty valid
measurements publishes an `acqOut` that is the sum of their sixty implied frequencies. -/
theorem C5_valid_accumulation_amended (pre w : List Nat) (c : Nat)
    (hv : isValid c = true) (hlen : w.length = 60) (hval : ∀ x ∈ w, isValid x = true) :
    (accumulate (measurementHolder c) (runPeriods pre resetState)).acqCounter
      = (runPeriods pre resetState).acqCounter + 1 ∧
    (accumulate (measurementHolder c) (runPeriods pre resetState)).acqHolder
      = (runPeriods pre resetState).acqHolder + XTAL_FREQ / (c : ℚ) ∧
    (runPeriods w resetState).acqOut = (w.map (fun x : Nat => XTAL_FREQ / (x : ℚ))).sum := by
  obtain ⟨h1, h2, -⟩ := reachInv_runPeriods pre
  refine ⟨?_, ?_, ?_⟩
  · rw [accumulate_valid c _ hv]
    exact wrapInt16_eq _ (by omega) (by omega)
  · rw [accumulate_valid c _ hv]
    rfl
  · obtain ⟨hw, -⟩ := allValid_window resetState w windowStart_resetState hlen hval
    obtain ⟨-, hp⟩ := window_published resetState w windowStart_resetState hw
    rw [hp]
    exact (counts_of_allValid w hval).2.2.1

/-- Witness of C5 (amended): sixty readings of 333333 counts. -/
theorem C5_valid_accumulation_amended_witness :
    isValid 333333 = true ∧
    (accumulate (measurementHolder 333333) (runPeriods [] resetState)).acqHolder
      = (runPeriods [] resetState).acqHolder + XTAL_FREQ / ((333333 : Nat) : ℚ) :=
  have hv : isValid 333333 = true := by rw [isValid_iff]; decide
  ⟨hv, (C5_valid_accumulation_amended [] (List.replicate 60 333333) 333333 hv (by simp)
    (by
      intro x hx
      rw [List.eq_of_mem_replicate hx]
      exact hv)).2.1⟩

/-- Claim C6 (cycle-count invariant).  In every state reached from the reset state by period
events, `0 ≤ acqCounter ≤ 59`; inside the next ISR call the counter never exceeds
`MAINS_FREQ = 60`; whenever it reaches 60 the same call takes the publication branch, sets
the gate and resets the accumulator; and after the call `0 ≤ acqCounter ≤ 59` holds again. -/
theorem C6_cycle_count_invariant (l : List Nat) (c : Nat) :
    0 ≤ (runPeriods l resetState).acqCounter ∧ (runPeriods l resetState).acqCounter ≤ 59 ∧
    (accumulate (measurementHolder c) (runPeriods l resetState)).acqCounter ≤ MAINS_FREQ ∧
    ((accumulate (measurementHolder c) (runPeriods l resetState)).acqCounter = MAINS_FREQ →
      fires c (runPeriods l resetState) = true ∧
      (ISR (periodRegs c) (runPeriods l resetState)).2.acqGate = true ∧
      (ISR (periodRegs c) (runPeriods l resetState)).2.acqCounter = 0 ∧
      (ISR (periodRegs c) (runPeriods l resetState)).2.acqHolder = 0 ∧
      (ISR (periodRegs c) (runPeriods l resetState)).2.erroneousZeroCrossing = 0) ∧
    0 ≤ (ISR (periodRegs c) (runPeriods l resetState)).2.acqCounter ∧
    (ISR (periodRegs c) (runPeriods l resetState)).2.acqCounter ≤ 59 := by
  have hi := reachInv_runPeriods l
  have ha := accumulate_reachInv c _ _ hi rfl
  have hn := periodBranch_reachInv c _ hi
  rw [ISR_periodRegs]
  refine ⟨hi.1, hi.2.1, ha.2.1, ?_, hn.1, hn.2.1⟩
  intro h60
  have hf : fires c (runPeriods l resetState) = true := by
    unfold fires
    rw [h60]
    decide
  rw [periodBranch_of_fires c _ hf]
  exact ⟨hf, rfl, rfl, rfl, rfl⟩

/-- Claim C10 (bound on the erroneous counter and on the divisor).  In every state reached
from the reset state by period events, `0 ≤ erroneousZeroCrossing ≤ 2 * acqCounter + 1`,
hence `erroneousZeroCrossing ≤ 119` (far from the 16 bit limit), `acqErrZeroCross` lies in
0..120, the divisor `MAINS_FREQ - acqErrZeroCross/2` of line 152 lies in 0..60, and a
divisor 0 comes with `acqErrZeroCross = 120` and `acqOut = 0`.  For every window `w`
published in a run from the reset state, the published `acqErrZeroCross` is the number of
erroneous measurements of `w`, and the divisor is 0 exactly when `w` has no valid
measurement and 120 erroneous ones. -/
theorem C10_erroneous_counter_bound (l pre w : List Nat) :
    (0 ≤ (runPeriods l resetState).erroneousZeroCrossing ∧
     (runPeriods l resetState).erroneousZeroCrossing
        ≤ 2 * (runPeriods l resetState).acqCounter + 1 ∧
     (runPeriods l resetState).erroneousZeroCrossing ≤ 119 ∧
     0 ≤ (runPeriods l resetState).acqErrZeroCross ∧
     (runPeriods l resetState).acqErrZeroCross ≤ 120 ∧
     0 ≤ MAINS_FREQ - Int.tdiv (runPeriods l resetState).acqErrZeroCross 2 ∧
     MAINS_FREQ - Int.tdiv (runPeriods l resetState).acqErrZeroCross 2 ≤ 60 ∧
     (MAINS_FREQ - Int.tdiv (runPeriods l resetState).acqErrZeroCross 2 = 0 →
        (runPeriods l resetState).acqErrZeroCross = 120 ∧
        (runPeriods l resetState).acqOut = 0)) ∧
    (atWindowBoundary pre → isWindow w (runPeriods pre resetState) →
      (runPeriods (pre ++ w) resetState).acqErrZeroCross = (errCount w : Int) ∧
      (MAINS_FREQ - Int.tdiv (runPeriods (pre ++ w) resetState).acqErrZeroCross 2 = 0
        ↔ validCount w = 0 ∧ errCount w = 120)) := by
  constructor
  · obtain ⟨h1, h2, h3, h4, -, h6, h7, h8⟩ := reachInv_runPeriods l
    have ht : Int.tdiv (runPeriods l resetState).acqErrZeroCross 2
        = (runPeriods l resetState).acqErrZeroCross / 2 :=
      Int.tdiv_eq_ediv h6 (by omega)
    rw [ht]
    unfold MAINS_FREQ
    refine ⟨h3, h4, by omega, h6, h7, by omega, by omega, ?_⟩
    intro h0
    have h120 : 120 ≤ (runPeriods l resetState).acqErrZeroCross := by omega
    exact ⟨by omega, h8 h120⟩
  · intro hb hw
    have hg := windowStart_of_atWindowBoundary pre hb
    obtain ⟨lw, c, rfl, hl, h60⟩ := (isWindow_iff _ w hg).1 hw
    have hE := errCount_le_of_window lw c hl
    rw [runPeriods_append, runPeriods_close _ lw c hg hl (by omega)]
    dsimp only
    refine ⟨rfl, ?_⟩
    rw [Int.tdiv_eq_ediv (by omega) (by omega)]
    unfold cycleCount at h60
    unfold MAINS_FREQ
    constructor
    · intro h; omega
    · rintro ⟨h1, h2⟩; omega

/-- Witness of C10: the first window of a run, made of 120 readings of 166667 counts. -/
theorem C10_erroneous_counter_bound_witness :
    atWindowBoundary [] ∧
    MAINS_FREQ - Int.tdiv (runPeriods (List.replicate 120 166667) resetState).acqErrZeroCross 2
      = 0 :=
  have he : isErroneous 166667 = true := by rw [isErroneous_iff]; decide
  have hw := allErroneous_window resetState 166667 windowStart_resetState he
  have h := (C10_erroneous_counter_bound [] [] (List.replicate 120 166667)).2
    (Or.inl rfl) hw.1
  ⟨Or.inl rfl, h.2.2 ⟨hw.2.1, hw.2.2⟩⟩

/-! ## The claims about the crossing classifier and about the publication block -/

/-- Counterexample to C4 as stated.  The phase 177 lies outside the band 178 to 182, yet the
zero-crossing branch leaves `missedCycle` false; the phase 182 lies inside that band, yet
the branch sets `missedCycle`. -/
theorem C4_band_counterexample :
    (ISR (zeroCrossRegs 177) resetState).2.missedCycle = false ∧
    (ISR (zeroCrossRegs 182) resetState).2.missedCycle = true := by
  constructor <;> simp [ISR, zeroCrossRegs, zeroCrossBranch, resetState]

/-- Claim C4, amended (anomaly detection boundary).  For every phase sample `AT1PHS`, the
zero-crossing branch of the ISR sets `missedCycle` exactly when the sample lies outside the
inclusive band 177 to 181: for `177 ≤ AT1PHS ≤ 181` the globals are left unchanged, and for
`AT1PHS ≤ 176` or `AT1PHS ≥ 182` the flag is set to true and nothing else changes. -/
theorem C4_anomaly_band_amended (r : Regs) (g : Globals)
    (h1 : r.SMT1PRAIF = false) (h2 : r.ZCDIF = true) :
    (177 ≤ r.AT1PHS ∧ r.AT1PHS ≤ 181 → (ISR r g).2 = g) ∧
    (r.AT1PHS ≤ 176 ∨ 182 ≤ r.AT1PHS → (ISR r g).2 = { g with missedCycle := true }) ∧
    ((ISR r g).2.missedCycle = true ↔
      (g.missedCycle = true ∨ ¬ (177 ≤ r.AT1PHS ∧ r.AT1PHS ≤ 181))) := by
  have hI : (ISR r g).2 = zeroCrossBranch r.AT1PHS g := by simp [ISR, h1, h2]
  rw [hI]
  unfold zeroCrossBranch
  refine ⟨?_, ?_, ?_⟩
  · rintro ⟨a, b⟩
    rw [if_neg (by omega)]
  · intro a
    rw [if_pos (by omega)]
  · by_cases hp : r.AT1PHS < 177 ∨ r.AT1PHS > 181
    · rw [if_pos hp]
      simp only [true_iff]
      right; omega
    · rw [if_neg hp]
      constructor
      · intro a; exact Or.inl a
      · rintro (a | a)
        · exact a
        · exact absurd a (by omega)

/-- Witness of C4 (amended): the phase sample 177 leaves the reset state unchanged. -/
theorem C4_anomaly_band_amended_witness :
    (zeroCrossRegs 177).SMT1PRAIF = false ∧ (zeroCrossRegs 177).ZCDIF = true ∧
    (ISR (zeroCrossRegs 177) resetState).2 = resetState :=
  ⟨rfl, rfl, (C4_anomaly_band_amended (zeroCrossRegs 177) resetState rfl rfl).1
    ⟨by decide, by decide⟩⟩

theorem accumulate_missedCycle (m : ℚ) (g : Globals) (b : Bool) :
    accumulate m { g with missedCycle := b } = { accumulate m g with missedCycle := b } ∧
    (accumulate m g).missedCycle = g.missedCycle := by
  unfold accumulate
  dsimp only
  split_ifs <;> simp

theorem periodBranch_missedCycle (c : Nat) (g : Globals) (b : Bool) :
    periodBranch c { g with missedCycle := b } = { periodBranch c g with missedCycle := b } ∧
    (periodBranch c g).missedCycle = g.missedCycle ∧
    fires c { g with missedCycle := b } = fires c g := by
  obtain ⟨h1, h2⟩ := accumulate_missedCycle (measurementHolder c) g b
  have hf : fires c { g with missedCycle := b } = fires c g := by
    unfold fires; rw [h1]
  refine ⟨?_, ?_, hf⟩
  · unfold periodBranch publishIfFull
    rw [h1, runStmts_publishStmts, runStmts_publishStmts]
    dsimp only
    split_ifs <;> rfl
  · unfold periodBranch publishIfFull
    rw [runStmts_publishStmts]
    split_ifs
    · exact h2
    · exact h2

/-- Claim C8 (liveness under anomaly, as non-interference).  For two states that differ
only in `missedCycle`, the period branch of the ISR yields results that agree on every
global other than `missedCycle` and takes the publication branch in the same cases, and it
leaves `missedCycle` as it was; the same holds for whole runs of period measurements.  The
zero-crossing branch changes no global other than `missedCycle`. -/
theorem C8_anomaly_noninterference (r : Regs) (g : Globals) (b : Bool) (l : List Nat) :
    (r.SMT1PRAIF = true →
      (ISR r { g with missedCycle := b }).2 = { (ISR r g).2 with missedCycle := b } ∧
      (ISR r g).2.missedCycle = g.missedCycle ∧
      fires r.SMT1CPR { g with missedCycle := b } = fires r.SMT1CPR g) ∧
    (r.SMT1PRAIF = false → r.ZCDIF = true →
      (ISR r g).2 = { g with missedCycle := (ISR r g).2.missedCycle }) ∧
    runPeriods l { g with missedCycle := b } = { runPeriods l g with missedCycle := b } ∧
    firings l { g with missedCycle := b } = firings l g := by
  refine ⟨?_, ?_, ?_, ?_⟩
  · intro h
    have hI : ∀ x : Globals, (ISR r x).2 = periodBranch r.SMT1CPR x := by
      intro x; simp [ISR, h]
    rw [hI, hI]
    exact periodBranch_missedCycle r.SMT1CPR g b
  · intro h1 h2
    have hI : (ISR r g).2 = zeroCrossBranch r.AT1PHS g := by simp [ISR, h1, h2]
    rw [hI]
    unfold zeroCrossBranch
    split_ifs <;> rfl
  · induction l generalizing g with
    | nil => rfl
    | cons c cs ih =>
      rw [runPeriods_cons, runPeriods_cons, (periodBranch_missedCycle c g b).1]
      exact ih (periodBranch c g)
  · induction l generalizing g with
    | nil => rfl
    | cons c cs ih =>
      simp only [firings, ISR_periodRegs]
      rw [(periodBranch_missedCycle c g b).2.2, (periodBranch_missedCycle c g b).1]
      rw [ih (periodBranch c g)]

/-- Witness of C8: a period interrupt with the reading 333333 in the reset state. -/
theorem C8_anomaly_noninterference_witness :
    (periodRegs 333333).SMT1PRAIF = true ∧
    (ISR (periodRegs 333333) { resetState with missedCycle := true }).2
      = { (ISR (periodRegs 333333) resetState).2 with missedCycle := true } :=
  ⟨rfl, ((C8_anomaly_noninterference (periodRegs 333333) resetState true []).1 rfl).1⟩

/-- Counterexample to C9 as stated.  After two erroneous readings, 58 readings of 400000
counts and the classification of one more such reading, the cycle count is 60 and the
publication block runs.  Its writes are, in order, `acqCounter`, `acqOut`, `acqGate`,
`acqHolder`, `acqErrZeroCross`, `erroneousZeroCrossing`: the ready token is the third of six
writes, not the last, and right after it is set `acqErrZeroCross` still holds the stale
value 0 while the value of this window, written two statements later, is 2. -/
theorem C9_publish_order_counterexample :
    accumulate (measurementHolder 400000)
        (runPeriods (166667 :: 166667 :: List.replicate 58 400000) resetState)
      = { resetState with acqCounter := 60, acqHolder := 2950, erroneousZeroCrossing := 2 } ∧
    writeLog publishStmts
        { resetState with acqCounter := 60, acqHolder := 2950, erroneousZeroCrossing := 2 }
      = [Write.acqCounter 0, Write.acqOut 2950, Write.acqGate true, Write.acqHolder 0,
         Write.acqErrZeroCross 2, Write.erroneousZeroCrossing 0] ∧
    (runStmts (publishStmts.take 3)
        { resetState with acqCounter := 60, acqHolder := 2950,
                          erroneousZeroCrossing := 2 }).acqGate = true ∧
    (runStmts (publishStmts.take 3)
        { resetState with acqCounter := 60, acqHolder := 2950,
                          erroneousZeroCrossing := 2 }).acqErrZeroCross = 0 ∧
    (runStmts publishStmts
        { resetState with acqCounter := 60, acqHolder := 2950,
                          erroneousZeroCrossing := 2 }).acqErrZeroCross = 2 := by
  refine ⟨?_, rfl, rfl, rfl, rfl⟩
  have he : isErroneous 166667 = true := by rw [isErroneous_iff]; decide
  have hval : ∀ c ∈ List.replicate 59 400000, isValid c = true := by
    intro c hc
    rw [List.eq_of_mem_replicate hc, isValid_iff]
    decide
  obtain ⟨-, hv, hE, hs, hk⟩ := paired_window resetState 166667 166667
    (List.replicate 59 400000) windowStart_resetState he he (by simp) hval
  have hlist : 166667 :: 166667 :: List.replicate 59 400000
      = (166667 :: 166667 :: List.replicate 58 400000) ++ [400000] := by
    rw [List.replicate_succ' 58]; simp
  have htake : (166667 :: 166667 :: List.replicate 59 400000).take 60
      = 166667 :: 166667 :: List.replicate 58 400000 := by
    rw [hlist]; simp
  have hopen : cycleCount (166667 :: 166667 :: List.replicate 58 400000) < 60 := by
    have := hk 60 (le_refl 60)
    rwa [htake] at this
  rw [hlist] at hv hE hs
  have hcc : cycleCount ((166667 :: 166667 :: List.replicate 58 400000) ++ [400000]) = 60 := by
    unfold cycleCount; rw [hv, hE]
  have hsum : validSum ((166667 :: 166667 :: List.replicate 58 400000) ++ [400000])
      = 2950 := by
    rw [hs]
    norm_num [List.map_replicate, List.sum_replicate, measurementHolder, XTAL_FREQ]
  rw [(runPeriods_open resetState _ windowStart_resetState hopen).1,
    accumulate_open resetState _ 400000 hopen, hcc, hE, hsum]
  rfl

/-- Claim C9, amended (publish ordering).  When the ISR publishes a window, the publication
block writes `acqCounter`, `acqOut`, `acqGate`, `acqHolder`, `acqErrZeroCross` and
`erroneousZeroCrossing`, in this order: `acqOut` is written before the ready token
`acqGate` is set and `acqErrZeroCross` after it, so right after the token is set
`acqErrZeroCross` still has its previous value.  All six writes belong to one ISR call:
when a period interrupt that publishes returns, the gate is set and both data fields hold
the sum and the erroneous count that the call accumulated. -/
theorem C9_publish_order_amended (g : Globals) (c : Nat) :
    writeLog publishStmts g
      = [Write.acqCounter 0, Write.acqOut g.acqHolder, Write.acqGate true, Write.acqHolder 0,
         Write.acqErrZeroCross g.erroneousZeroCrossing, Write.erroneousZeroCrossing 0] ∧
    (runStmts (publishStmts.take 2) g).acqOut = g.acqHolder ∧
    (runStmts (publishStmts.take 2) g).acqGate = g.acqGate ∧
    (runStmts (publishStmts.take 3) g).acqGate = true ∧
    (runStmts (publishStmts.take 3) g).acqErrZeroCross = g.acqErrZeroCross ∧
    (runStmts publishStmts g).acqGate = true ∧
    (runStmts publishStmts g).acqOut = g.acqHolder ∧
    (runStmts publishStmts g).acqErrZeroCross = g.erroneousZeroCrossing ∧
    (fires c g = true →
      (ISR (periodRegs c) g).2 = runStmts publishStmts (accumulate (measurementHolder c) g) ∧
      (ISR (periodRegs c) g).2.acqGate = true ∧
      (ISR (periodRegs c) g).2.acqOut = (accumulate (measurementHolder c) g).acqHolder ∧
      (ISR (periodRegs c) g).2.acqErrZeroCross
        = (accumulate (measurementHolder c) g).erroneousZeroCrossing) := by
  refine ⟨rfl, rfl, rfl, rfl, rfl, rfl, rfl, rfl, ?_⟩
  intro hf
  have h1 : (accumulate (measurementHolder c) g).acqCounter ≥ MAINS_FREQ := by
    simpa [fires] using hf
  have hI : (ISR (periodRegs c) g).2
      = runStmts publishStmts (accumulate (measurementHolder c) g) := by
    rw [ISR_periodRegs]
    unfold periodBranch publishIfFull
    rw [if_pos h1]
  rw [hI]
  exact ⟨rfl, rfl, rfl, rfl⟩

/-- Witness of C9 (amended): a valid reading that arrives when the cycle count is 59. -/
theorem C9_publish_order_amended_witness :
    fires 333333 { resetState with acqCounter := 59 } = true ∧
    (ISR (periodRegs 333333) { resetState with acqCounter := 59 }).2.acqGate = true :=
  have hf : fires 333333 { resetState with acqCounter := 59 } = true := by
    have hv : isValid 333333 = true := by rw [isValid_iff]; decide
    unfold fires
    rw [accumulate_valid _ _ hv]
    simp [resetState, wrapInt16, MAINS_FREQ]
  ⟨hf, ((C9_publish_order_amended { resetState with acqCounter := 59 } 333333).2.2.2.2.2.2.2.2
    hf).2.1⟩

/-! ## The handoff between the ISR and the polling loop -/

theorem runEvents_append (a b : List Event) (s : Sys) :
    runEvents (a ++ b) s =
      ((runEvents b (runEvents a s).1).1, (runEvents a s).2 ++ (runEvents b (runEvents a s).1).2) := by
  induction a generalizing s with
  | nil => rfl
  | cons e es ih => simp [runEvents, ih]

theorem pendingWindow_accumulate (m : ℚ) (g : Globals) :
    pendingWindow (accumulate m g) = pendingWindow g := by
  unfold accumulate pendingWindow
  dsimp only
  split_ifs <;> rfl

theorem step_period_fires (c : Nat) (s : Sys) (h : fires c s.g = true) :
    step (Event.period c) s =
      ({ s with g := periodBranch c s.g },
        Obs.published ⟨(periodBranch c s.g).acqOut, (periodBranch c s.g).acqErrZeroCross⟩) ∧
    (periodBranch c s.g).acqGate = true := by
  constructor
  · simp [step, h, ISR_periodRegs]
  · rw [periodBranch_of_fires c s.g h]

theorem step_period_quiet (c : Nat) (s : Sys) (h : fires c s.g = false) :
    step (Event.period c) s = ({ s with g := periodBranch c s.g }, Obs.quiet) ∧
    pendingWindow (periodBranch c s.g) = pendingWindow s.g := by
  constructor
  · simp [step, h, ISR_periodRegs]
  · rw [periodBranch_of_not_fires c s.g h, pendingWindow_accumulate]

theorem step_zeroCross (p : Nat) (s : Sys) :
    step (Event.zeroCross p) s = ({ s with g := zeroCrossBranch p s.g }, Obs.quiet) ∧
    pendingWindow (zeroCrossBranch p s.g) = pendingWindow s.g := by
  constructor
  · simp [step, ISR_zeroCrossRegs]
  · unfold zeroCrossBranch pendingWindow
    split_ifs <;> rfl

theorem step_poll_gate (s : Sys) (h : s.g.acqGate = true) :
    (step Event.poll s).2 = Obs.took ⟨s.g.acqOut, s.g.acqErrZeroCross⟩ ∧
    (step Event.poll s).1.g =
      { s.g with acqGate := false, acqOut := 0, acqErrZeroCross := 0, missedCycle := false } := by
  constructor
  · simp [step, h]
  · simp only [step]
    exact (mainLoopIter_of_gate s.m s.g h).2

theorem step_poll_idle (s : Sys) (h : s.g.acqGate = false) :
    step Event.poll s = (s, Obs.idle) := by
  simp [step, h, mainLoopIter_of_not_gate s.m s.g h]

/-- The polls of the program return what the one-place mailbox of the specification
returns, from any state. -/
theorem handoff_refines (evs : List Event) (s : Sys) :
    pollResults (runEvents evs s).2
      = specPollResults (runEvents evs s).2 (pendingWindow s.g).head? := by
  induction evs generalizing s with
  | nil => rfl
  | cons e es ih =>
    simp only [runEvents]
    cases e with
    | period c =>
      by_cases hf : fires c s.g = true
      · obtain ⟨h1, h2⟩ := step_period_fires c s hf
        rw [h1]
        simp only [pollResults, specPollResults, specPublish]
        rw [ih]
        simp [pendingWindow, h2]
      · have hf2 : fires c s.g = false := by simpa using hf
        obtain ⟨h1, h2⟩ := step_period_quiet c s hf2
        rw [h1]
        simp only [pollResults, specPollResults]
        rw [ih]
        simp [h2]
    | zeroCross p =>
      obtain ⟨h1, h2⟩ := step_zeroCross p s
      rw [h1]
      simp only [pollResults, specPollResults]
      rw [ih]
      simp [h2]
    | poll =>
      by_cases hg : s.g.acqGate = true
      · obtain ⟨h1, h2⟩ := step_poll_gate s hg
        rw [h1]
        simp only [pollResults, specPollResults, specTryTakeWindow]
        rw [ih, h2]
        simp [pendingWindow, hg]
      · have hg2 : s.g.acqGate = false := by simpa using hg
        rw [step_poll_idle s hg2]
        simp only [pollResults, specPollResults, specTryTakeWindow]
        rw [ih]
        simp [pendingWindow, hg2]

/-- With a poll between every two publications, the consumed windows followed by the
pending one are the pending one at the start followed by the published windows. -/
theorem handoff_lossless (evs : List Event) (s : Sys)
    (h : pollsBetween (runEvents evs s).2 s.g.acqGate = true) :
    consumedWindows (runEvents evs s).2 ++ pendingWindow (runEvents evs s).1.g
      = pendingWindow s.g ++ publishedWindows (runEvents evs s).2 := by
  induction evs generalizing s with
  | nil => simp [runEvents, consumedWindows, pollResults, publishedWindows]
  | cons e es ih =>
    simp only [runEvents] at h ⊢
    cases e with
    | period c =>
      by_cases hf : fires c s.g = true
      · obtain ⟨h1, h2⟩ := step_period_fires c s hf
        rw [h1] at h ⊢
        simp only [pollsBetween, Bool.and_eq_true, Bool.not_eq_true'] at h
        have := ih { s with g := periodBranch c s.g } (by simpa [h2] using h.2)
        simp only [consumedWindows, pollResults, publishedWindows] at this ⊢
        rw [this]
        simp [pendingWindow, h2, h.1]
      · have hf2 : fires c s.g = false := by simpa using hf
        obtain ⟨h1, h2⟩ := step_period_quiet c s hf2
        rw [h1] at h ⊢
        simp only [pollsBetween] at h
        have hgate : (periodBranch c s.g).acqGate = s.g.acqGate := by
          rw [periodBranch_of_not_fires c s.g hf2]
          unfold accumulate
          dsimp only
          split_ifs <;> rfl
        have := ih { s with g := periodBranch c s.g } (by simpa [hgate] using h)
        simp only [consumedWindows, pollResults, publishedWindows] at this ⊢
        rw [this]
        simp [h2]
    | zeroCross p =>
      obtain ⟨h1, h2⟩ := step_zeroCross p s
      rw [h1] at h ⊢
      simp only [pollsBetween] at h
      have hgate : (zeroCrossBranch p s.g).acqGate = s.g.acqGate := by
        unfold zeroCrossBranch; split_ifs <;> rfl
      have := ih { s with g := zeroCrossBranch p s.g } (by simpa [hgate] using h)
      simp only [consumedWindows, pollResults, publishedWindows] at this ⊢
      rw [this]
      simp [h2]
    | poll =>
      by_cases hg : s.g.acqGate = true
      · obtain ⟨h1, h2⟩ := step_poll_gate s hg
        rw [h1] at h ⊢
        simp only [pollsBetween] at h
        have := ih (step Event.poll s).1 (by simpa [h2] using h)
        simp only [consumedWindows, pollResults, publishedWindows, List.filterMap_cons,
          id] at this ⊢
        rw [List.cons_append, this, h2]
        simp [pendingWindow, hg]
      · have hg2 : s.g.acqGate = false := by simpa using hg
        rw [step_poll_idle s hg2] at h ⊢
        simp only [pollsBetween] at h
        have := ih s (by simpa [hg2] using h)
        simp only [consumedWindows, pollResults, publishedWindows, List.filterMap_cons,
          id] at this ⊢
        rw [this]

theorem noPoll_cons (e : Event) (es : List Event) (h : noPoll (e :: es) = true) :
    e ≠ Event.poll ∧ noPoll es = true := by
  simpa [noPoll] using h

theorem pendingWindow_of_noPoll_quiet (es : List Event) (s : Sys) (h : noPoll es = true)
    (hp : publishedWindows (runEvents es s).2 = []) :
    pendingWindow (runEvents es s).1.g = pendingWindow s.g := by
  induction es generalizing s with
  | nil => rfl
  | cons e es ih =>
    obtain ⟨he, hes⟩ := noPoll_cons e es h
    simp only [runEvents] at hp ⊢
    cases e with
    | period c =>
      by_cases hf : fires c s.g = true
      · rw [(step_period_fires c s hf).1] at hp
        simp [publishedWindows] at hp
      · have hf2 : fires c s.g = false := by simpa using hf
        obtain ⟨h1, h2⟩ := step_period_quiet c s hf2
        rw [h1] at hp ⊢
        rw [ih { s with g := periodBranch c s.g } hes (by simpa [publishedWindows] using hp)]
        exact h2
    | zeroCross p =>
      obtain ⟨h1, h2⟩ := step_zeroCross p s
      rw [h1] at hp ⊢
      rw [ih { s with g := zeroCrossBranch p s.g } hes (by simpa [publishedWindows] using hp)]
      exact h2
    | poll => exact absurd rfl he

/-- Without a poll, the pending window is the window published last. -/
theorem pendingWindow_of_noPoll (es : List Event) (s : Sys) (ws : List Window) (w : Window)
    (h : noPoll es = true) (hp : publishedWindows (runEvents es s).2 = ws ++ [w]) :
    pendingWindow (runEvents es s).1.g = [w] := by
  induction es generalizing s ws with
  | nil => simp [runEvents, publishedWindows] at hp
  | cons e es ih =>
    obtain ⟨he, hes⟩ := noPoll_cons e es h
    simp only [runEvents] at hp ⊢
    cases e with
    | period c =>
      by_cases hf : fires c s.g = true
      · obtain ⟨h1, h2⟩ := step_period_fires c s hf
        rw [h1] at hp ⊢
        simp only [publishedWindows] at hp
        cases ws with
        | nil =>
          simp only [List.nil_append, List.cons.injEq] at hp
          rw [pendingWindow_of_noPoll_quiet es _ hes hp.2]
          simp [pendingWindow, h2, hp.1]
        | cons x xs =>
          simp only [List.cons_append, List.cons.injEq] at hp
          exact ih { s with g := periodBranch c s.g } xs hes hp.2
      · have hf2 : fires c s.g = false := by simpa using hf
        rw [(step_period_quiet c s hf2).1] at hp ⊢
        exact ih { s with g := periodBranch c s.g } ws hes (by simpa [publishedWindows] using hp)
    | zeroCross p =>
      rw [(step_zeroCross p s).1] at hp ⊢
      exact ih { s with g := zeroCrossBranch p s.g } ws hes (by simpa [publishedWindows] using hp)
    | poll => exact absurd rfl he

/-- Two polls in a row when a window is pending: the first takes it, the second is idle. -/
theorem two_polls (s : Sys) (w : Window) (h : pendingWindow s.g = [w]) :
    (runEvents [Event.poll, Event.poll] s).2 = [Obs.took w, Obs.idle] := by
  have hg : s.g.acqGate = true := by
    by_contra hn
    simp [pendingWindow, hn] at h
  have hw : (⟨s.g.acqOut, s.g.acqErrZeroCross⟩ : Window) = w := by
    simpa [pendingWindow, hg] using h
  obtain ⟨h1, h2⟩ := step_poll_gate s hg
  have h3 : (step Event.poll s).1.g.acqGate = false := by rw [h2]
  simp only [runEvents]
  rw [h1, hw, step_poll_idle _ h3]

theorem runEvents_periods_state (l : List Nat) (s : Sys) :
    (runEvents (l.map Event.period) s).1 = { s with g := runPeriods l s.g } := by
  induction l generalizing s with
  | nil => rfl
  | cons c cs ih =>
    simp only [List.map_cons, runEvents]
    rw [ih, runPeriods_cons]
    simp [step, ISR_periodRegs]

theorem runEvents_periods_open (l : List Nat) (s : Sys) (hg : windowStart s.g)
    (h : cycleCount l < 60) :
    (runEvents (l.map Event.period) s).2 = List.replicate l.length Obs.quiet := by
  induction l using List.reverseRecOn with
  | nil => rfl
  | append_singleton l c ih =>
    have hl : cycleCount l < 60 := lt_of_le_of_lt (cycleCount_snoc_ge l c) h
    have hf : fires c (runPeriods l s.g) = false := by
      rw [fires_open s.g l c hg hl]
      simpa using h
    have hst := runEvents_periods_state l s
    rw [List.map_append, runEvents_append, ih hl]
    simp only [List.map_cons, List.map_nil, runEvents]
    rw [hst, (step_period_quiet c { s with g := runPeriods l s.g } hf).1, List.length_append,
      List.length_singleton, List.replicate_succ']

/-- The observations of the period events of one window. -/
theorem runEvents_window (w : List Nat) (s : Sys) (hg : windowStart s.g)
    (hw : isWindow w s.g) :
    runEvents (w.map Event.period) s =
      ({ s with g := runPeriods w s.g },
        List.replicate (w.length - 1) Obs.quiet
          ++ [Obs.published ⟨validSum w, (errCount w : Int)⟩]) := by
  obtain ⟨l, c, rfl, hl, h60⟩ := (isWindow_iff s.g w hg).1 hw
  have hf : fires c (runPeriods l s.g) = true := by
    rw [fires_open s.g l c hg hl]
    simp [h60]
  have hc := runPeriods_close s.g l c hg hl (by omega)
  rw [runPeriods_snoc] at hc
  refine Prod.ext (runEvents_periods_state _ s) ?_
  have hst := runEvents_periods_state l s
  rw [List.map_append, runEvents_append, runEvents_periods_open l s hg hl]
  simp only [List.map_cons, List.map_nil, runEvents]
  rw [hst, (step_period_fires c { s with g := runPeriods l s.g } hf).1]
  dsimp only
  rw [hc]
  simp

theorem pollsBetween_quiet (n : Nat) (t : List Obs) (o : Bool) :
    pollsBetween (List.replicate n Obs.quiet ++ t) o = pollsBetween t o := by
  induction n with
  | zero => rfl
  | succ k ih => simpa [List.replicate_succ, pollsBetween] using ih

theorem publishedWindows_append (a b : List Obs) :
    publishedWindows (a ++ b) = publishedWindows a ++ publishedWindows b := by
  induction a with
  | nil => rfl
  | cons x xs ih => cases x <;> simp [publishedWindows, ih]

theorem publishedWindows_quiet (n : Nat) :
    publishedWindows (List.replicate n Obs.quiet) = [] := by
  induction n with
  | zero => rfl
  | succ k ih => simpa [List.replicate_succ, publishedWindows] using ih

theorem windowStart_of_window (g : Globals) (w : List Nat) (hg : windowStart g)
    (hw : isWindow w g) : windowStart (runPeriods w g) := by
  rw [(window_published g w hg hw).2]
  simp [windowStart]

/-- The observations of one window followed by a poll, and the globals afterwards. -/
theorem runEvents_window_poll (w : List Nat) (s : Sys) (hg : windowStart s.g)
    (hw : isWindow w s.g) :
    (runEvents (w.map Event.period ++ [Event.poll]) s).2 =
      List.replicate (w.length - 1) Obs.quiet
        ++ [Obs.published ⟨validSum w, (errCount w : Int)⟩,
            Obs.took ⟨validSum w, (errCount w : Int)⟩] ∧
    (runEvents (w.map Event.period ++ [Event.poll]) s).1.g =
      { s.g with acqCounter := 0, acqHolder := 0, erroneousZeroCrossing := 0, acqGate := false,
                 acqOut := 0, acqErrZeroCross := 0, missedCycle := false } := by
  have hp := (window_published s.g w hg hw).2
  have hgate : ({ s with g := runPeriods w s.g } : Sys).g.acqGate = true := by
    dsimp only; rw [hp]
  obtain ⟨h1, h2⟩ := step_poll_gate { s with g := runPeriods w s.g } hgate
  rw [runEvents_append, runEvents_window w s hg hw]
  simp only [runEvents]
  constructor
  · rw [h1]
    dsimp only
    rw [hp]
    simp
  · rw [h2]
    dsimp only
    rw [hp]

/-- The windows published by the period events of two windows in a row. -/
theorem runEvents_two_windows (w1 w2 : List Nat) (s : Sys) (hg : windowStart s.g)
    (hw1 : isWindow w1 s.g) (hw2 : isWindow w2 (runPeriods w1 s.g)) :
    publishedWindows (runEvents ((w1 ++ w2).map Event.period) s).2 =
      [⟨validSum w1, (errCount w1 : Int)⟩, ⟨validSum w2, (errCount w2 : Int)⟩] := by
  have hg2 : windowStart ({ s with g := runPeriods w1 s.g } : Sys).g :=
    windowStart_of_window s.g w1 hg hw1
  rw [List.map_append, runEvents_append, runEvents_window w1 s hg hw1]
  dsimp only
  rw [runEvents_window w2 { s with g := runPeriods w1 s.g } hg2 hw2]
  simp [publishedWindows_append, publishedWindows_quiet, publishedWindows]

theorem validSum_replicate (n c : Nat) (h : isValid c = true) :
    validSum (List.replicate n c) = (n : ℚ) * measurementHolder c := by
  have := validSum_of_const (List.replicate n c) (measurementHolder c)
    (fun x hx _ => by rw [List.eq_of_mem_replicate hx])
  rw [this, validCount_replicate, if_pos h]

/-- Claim C7 (handoff semantics, every ISR call and every iteration of the polling loop
being one atomic step).  In every run from power-up the results of the polls are those of
the one-place mailbox of the specification: a poll consumes a window exactly when a window
was published since the last consuming poll, and it consumes the window published last.
A consuming poll clears `acqGate` and derives its report from the `acqOut` and
`acqErrZeroCross` it found; a poll that finds the gate closed changes nothing.  If there is
a poll between every two publications, the consumed windows (followed by the window still
pending) are the published windows, in order.  If windows are published without a poll in
between, the next poll takes the last of them, the poll after it finds nothing, and the
earlier ones are never seen. -/
theorem C7_handoff (evs es : List Event) (ws : List Window) (w : Window) (s : Sys) :
    pollResults (runEvents evs initSys).2 = specPollResults (runEvents evs initSys).2 none ∧
    (step Event.poll s).1.g.acqGate = false ∧
    (s.g.acqGate = true →
      (step Event.poll s).2 = Obs.took ⟨s.g.acqOut, s.g.acqErrZeroCross⟩ ∧
      ((mainLoopIter s.m s.g).2.2).map Report.freqHolder
        = some (freqHolder s.g.acqOut s.g.acqErrZeroCross)) ∧
    (s.g.acqGate = false → step Event.poll s = (s, Obs.idle)) ∧
    (pollsBetween (runEvents evs initSys).2 false = true →
      consumedWindows (runEvents evs initSys).2 ++ pendingWindow (runEvents evs initSys).1.g
        = publishedWindows (runEvents evs initSys).2) ∧
    (noPoll es = true →
      publishedWindows (runEvents es (runEvents evs initSys).1).2 = ws ++ [w] →
      (runEvents (evs ++ es ++ [Event.poll, Event.poll]) initSys).2
        = (runEvents (evs ++ es) initSys).2 ++ [Obs.took w, Obs.idle]) := by
  refine ⟨?_, ?_, ?_, ?_, ?_, ?_⟩
  · exact handoff_refines evs initSys
  · by_cases hg : s.g.acqGate = true
    · rw [(step_poll_gate s hg).2]
    · have hg2 : s.g.acqGate = false := by simpa using hg
      rw [step_poll_idle s hg2]
      exact hg2
  · intro hg
    exact ⟨(step_poll_gate s hg).1, (mainLoopIter_of_gate s.m s.g hg).1⟩
  · exact step_poll_idle s
  · intro h
    have := handoff_lossless evs initSys h
    simpa [pendingWindow, initSys, resetState] using this
  · intro hn hp
    have hpend := pendingWindow_of_noPoll es _ ws w hn hp
    rw [runEvents_append (evs ++ es), two_polls _ w (by rw [runEvents_append]; exact hpend)]

/-- Witness of C7: a window of 50 Hz readings, a poll, then a window of 40 Hz readings and a
window of 32 Hz readings with no poll in between: the two polls that follow see the last
window (sum 1920) and then nothing. -/
theorem C7_handoff_witness :
    noPoll ((List.replicate 60 500000 ++ List.replicate 60 625000).map Event.period) = true ∧
    (runEvents
        (((List.replicate 60 400000).map Event.period ++ [Event.poll])
          ++ (List.replicate 60 500000 ++ List.replicate 60 625000).map Event.period
          ++ [Event.poll, Event.poll]) initSys).2
      = (runEvents
          (((List.replicate 60 400000).map Event.period ++ [Event.poll])
            ++ (List.replicate 60 500000 ++ List.replicate 60 625000).map Event.period)
          initSys).2 ++ [Obs.took ⟨1920, 0⟩, Obs.idle] ∧
    consumedWindows
        (runEvents ((List.replicate 60 400000).map Event.period ++ [Event.poll]) initSys).2
      ++ pendingWindow
        (runEvents ((List.replicate 60 400000).map Event.period ++ [Event.poll]) initSys).1.g
      = publishedWindows
        (runEvents ((List.replicate 60 400000).map Event.period ++ [Event.poll]) initSys).2 := by
  have v1 : isValid 400000 = true := by rw [isValid_iff]; decide
  have v2 : isValid 500000 = true := by rw [isValid_iff]; decide
  have v3 : isValid 625000 = true := by rw [isValid_iff]; decide
  have hall : ∀ c : Nat, isValid c = true → ∀ x ∈ List.replicate 60 c, isValid x = true := by
    intro c hc x hx
    rw [List.eq_of_mem_replicate hx]; exact hc
  have hc : ∀ c : Nat, isValid c = true → errCount (List.replicate 60 c) = 0 :=
    fun c h => (counts_of_allValid _ (hall c h)).2.1
  have hw1 := (allValid_window resetState (List.replicate 60 400000) windowStart_resetState
    (by simp) (hall _ v1)).1
  obtain ⟨t1, g1⟩ := runEvents_window_poll (List.replicate 60 400000) initSys
    windowStart_resetState hw1
  have hg1 : (runEvents ((List.replicate 60 400000).map Event.period ++ [Event.poll])
      initSys).1.g = resetState := by
    rw [g1]; rfl
  have hs1 : windowStart (runEvents ((List.replicate 60 400000).map Event.period
      ++ [Event.poll]) initSys).1.g := by
    rw [hg1]; exact windowStart_resetState
  have hw2 := (allValid_window _ (List.replicate 60 500000) hs1 (by simp) (hall _ v2)).1
  have hw3 := (allValid_window _ (List.replicate 60 625000)
    (windowStart_of_window _ _ hs1 hw2) (by simp) (hall _ v3)).1
  have hpub := runEvents_two_windows (List.replicate 60 500000) (List.replicate 60 625000)
    _ hs1 hw2 hw3
  have hsum : validSum (List.replicate 60 625000) = 1920 := by
    rw [validSum_replicate _ _ v3]
    norm_num [measurementHolder, XTAL_FREQ]
  rw [hc _ v2, hc _ v3, hsum] at hpub
  have hn : noPoll ((List.replicate 60 500000 ++ List.replicate 60 625000).map Event.period)
      = true := by
    simp [noPoll]
  have h := C7_handoff ((List.replicate 60 400000).map Event.period ++ [Event.poll])
    ((List.replicate 60 500000 ++ List.replicate 60 625000).map Event.period)
    [⟨validSum (List.replicate 60 500000), 0⟩] ⟨1920, 0⟩ initSys
  refine ⟨hn, h.2.2.2.2.2 hn (by simpa using hpub), h.2.2.2.2.1 ?_⟩
  rw [t1, pollsBetween_quiet]
  rfl

end MainsFrequencyMonitor
